import Mathlib

/-!
A shallow embedding of the "Dwarn-Fortress" civilization simulator
(`src/cell.py`, `src/world.py`, `src/civilization.py`, `src/events.py`,
`src/simulation.py`) and proofs of the specification claims about it.

Modelling conventions:
* Python machine state is passed explicitly; every mutating method becomes a
  function returning the updated value.
* The global `random` module is modelled as a stream of rational draws in
  `[0, 1)` together with a cursor (`Rng`); each primitive draw consumes one
  stream element, in the order the Python code consumes them.
* Python `float` arithmetic on the small literal rates used by the program
  (`0.1`, `0.02`, `0.3`, ...) is modelled exactly over `ℚ`; `int(q)` is
  truncation toward zero (`pyTrunc`).
* The 2D grid of `Cell` objects is a total function from integer coordinates,
  consulted only inside the bounds checks that `World.get_cell` performs.
-/

namespace DF

/-- Python `int(q)`: truncation of a rational toward zero. -/
def pyTrunc (q : ℚ) : ℤ :=
  if 0 ≤ q then ⌊q⌋ else ⌈q⌉

/-- The global `random` source: a stream of rational draws and a cursor. -/
structure Rng where
  idx : ℕ
  stream : ℕ → ℚ

/-- Consume one raw draw (models one call into the `random` module). -/
def Rng.next (g : Rng) : ℚ × Rng :=
  (g.stream g.idx, ⟨g.idx + 1, g.stream⟩)

/-- `random.randint(a, b)` derived deterministically from one raw draw. -/
def randInt (a b : ℤ) (q : ℚ) : ℤ :=
  a + pyTrunc (q * ((b - a) + 1))

/-- `random.uniform(a, b)` derived from one raw draw. -/
def randUniform (a b : ℚ) (q : ℚ) : ℚ :=
  a + q * (b - a)

/-- `random.choice` on a list of length `n`: the chosen index. -/
def pickIdx (q : ℚ) (n : ℕ) : ℕ :=
  min (n - 1) (Int.toNat (pyTrunc (q * n)))

/-- Terrain kinds (`TerrainType` in `cell.py`). -/
inductive TerrainType where
  | plains
  | forest
  | mountain
  | water
  | desert
deriving DecidableEq, Repr

/-- Mineral kinds (`MineralType` in `cell.py`). -/
inductive MineralType where
  | none
  | iron
  | gold
  | copper
  | stone
deriving DecidableEq, Repr

/-- One tile of the world (`Cell` in `cell.py`).  The random generation in
`Cell.__init__` is not modelled; claims quantify over already-built cells. -/
structure Cell where
  x : ℤ
  y : ℤ
  altitude : ℤ
  base_temperature : ℤ
  temperature : ℤ
  terrain : TerrainType
  mineral : MineralType
  food_resource : ℤ
  max_food : ℤ
  owner : Option String
deriving DecidableEq, Repr

namespace Cell

/-- `Cell.is_passable`: `self.terrain not in [WATER, MOUNTAIN]`. -/
def is_passable (c : Cell) : Bool :=
  !(c.terrain = TerrainType.water ∨ c.terrain = TerrainType.mountain : Bool)

/-- `Cell.update_climate`: `self.temperature = self.base_temperature + season_modifier`. -/
def update_climate (c : Cell) (season_modifier : ℤ) : Cell :=
  { c with temperature := c.base_temperature + season_modifier }

/-- `Cell.regenerate_food`: on non-water terrain,
`growth = int(self.max_food * rate); food = min(max_food, food + growth)`. -/
def regenerate_food (c : Cell) (rate : ℚ) : Cell :=
  if c.terrain ≠ TerrainType.water then
    let growth := pyTrunc ((c.max_food : ℚ) * rate)
    { c with food_resource := min c.max_food (c.food_resource + growth) }
  else
    c

/-- `Cell.harvest_food`: `harvested = min(amount, food); food -= harvested;
return harvested`.  Returns the pair (harvested, updated cell). -/
def harvest_food (c : Cell) (amount : ℤ) : ℤ × Cell :=
  let harvested := min amount c.food_resource
  (harvested, { c with food_resource := c.food_resource - harvested })

end Cell

/-- The world map (`World` in `world.py`): a grid of cells plus calendar. -/
structure World where
  width : ℤ
  height : ℤ
  grid : ℤ × ℤ → Cell
  current_day : ℕ
  current_year : ℤ

namespace World

/-- `DAYS_PER_YEAR = 365`. -/
def DAYS_PER_YEAR : ℕ := 365

/-- Bounds test used by `World.get_cell`. -/
def inBounds (w : World) (p : ℤ × ℤ) : Prop :=
  0 ≤ p.1 ∧ p.1 < w.width ∧ 0 ≤ p.2 ∧ p.2 < w.height

instance (w : World) (p : ℤ × ℤ) : Decidable (w.inBounds p) := by
  unfold inBounds; infer_instance

/-- `World.get_cell`: the cell at `(x, y)`, or `none` outside the grid. -/
def get_cell (w : World) (x y : ℤ) : Option Cell :=
  if w.inBounds (x, y) then some (w.grid (x, y)) else none

/-- Replace the cell stored at coordinate `p` (a Python in-place mutation of
the object held in `grid[p.2][p.1]`). -/
def setCell (w : World) (p : ℤ × ℤ) (c : Cell) : World :=
  { w with grid := fun q => if q = p then c else w.grid q }

/-- The eight neighbor offsets, in the iteration order of
`World.get_neighbors` (`dx` outer loop, `dy` inner loop, skipping `(0,0)`). -/
def neighborOffsets : List (ℤ × ℤ) :=
  [(-1, -1), (-1, 0), (-1, 1), (0, -1), (0, 1), (1, -1), (1, 0), (1, 1)]

/-- `World.get_neighbors`, keeping each neighbor's grid key alongside the
cell (the Python objects are aliases of their grid slots). -/
def neighborsK (w : World) (x y : ℤ) : List ((ℤ × ℤ) × Cell) :=
  neighborOffsets.filterMap fun d =>
    (w.get_cell (x + d.1) (y + d.2)).map fun c => ((x + d.1, y + d.2), c)

/-- `World.get_neighbors` as the Python method returns it: just the cells. -/
def get_neighbors (w : World) (x y : ℤ) : List Cell :=
  (w.neighborsK x y).map Prod.snd

/-- `World.get_passable_neighbors`, with grid keys. -/
def passableNeighborsK (w : World) (x y : ℤ) : List ((ℤ × ℤ) × Cell) :=
  (w.neighborsK x y).filter fun kc => kc.2.is_passable

/-- `World.get_season_modifier`: piecewise-linear seasonal temperature
modifier from the day of year. -/
def get_season_modifier (w : World) : ℤ :=
  let day_of_year : ℕ := w.current_day % DAYS_PER_YEAR
  if day_of_year < 91 then
    -15 + (day_of_year / 6 : ℕ)
  else if day_of_year < 182 then
    ((day_of_year - 91) / 6 : ℕ)
  else if day_of_year < 273 then
    15 - ((day_of_year - 182) / 6 : ℕ)
  else
    -((day_of_year - 273) / 6 : ℕ)

/-- `World.update_climate`: recompute every in-grid cell's temperature. -/
def update_climate (w : World) : World :=
  let m := w.get_season_modifier
  { w with grid := fun p =>
      if w.inBounds p then (w.grid p).update_climate m else w.grid p }

/-- `World.update_resources`: regenerate every in-grid cell's food at rate
`0.1`, or `0.02` when the season modifier is `≤ -10`. -/
def update_resources (w : World) : World :=
  let regen_rate : ℚ := if w.get_season_modifier > -10 then 1 / 10 else 1 / 50
  { w with grid := fun p =>
      if w.inBounds p then (w.grid p).regenerate_food regen_rate else w.grid p }

/-- `World.advance_day`: increment the day, rolling the year every 365 days. -/
def advance_day (w : World) : World :=
  let d := w.current_day + 1
  { w with
    current_day := d
    current_year := if d % DAYS_PER_YEAR = 0 then w.current_year + 1 else w.current_year }

end World

/-- FSM states (`CivilizationState` in `civilization.py`). -/
inductive CivilizationState where
  | idle
  | hunting
  | gathering
  | expanding
  | diplomacy
  | defending
  | collapsed
deriving DecidableEq, Repr

/-- Personality traits (`PersonalityTrait` in `civilization.py`). -/
inductive PersonalityTrait where
  | aggressive
  | peaceful
  | isolationist
  | expansionist
  | trading
deriving DecidableEq, Repr

/-- An autonomous civilization (`Civilization` in `civilization.py`).
`relations` models the Python dict from other civilizations' names to the
established relation score. -/
structure Civilization where
  name : String
  population : ℤ
  food : ℤ
  morale : ℤ
  tech_level : ℤ
  state : CivilizationState
  personality : PersonalityTrait
  capital : ℤ × ℤ
  territory : List (ℤ × ℤ)
  relations : String → Option ℤ
  is_alive : Bool
  death_cause : Option String

namespace Civilization

/-- `FOOD_STARVING = 20`. -/
def FOOD_STARVING : ℚ := 20

/-- `FOOD_LOW = 50`. -/
def FOOD_LOW : ℚ := 50

/-- `FOOD_EXCESS = 150`. -/
def FOOD_EXCESS : ℚ := 150

/-- `MORALE_CRITICAL = 10`. -/
def MORALE_CRITICAL : ℤ := 10

/-- `POPULATION_MIN = 10`. -/
def POPULATION_MIN : ℤ := 10

/-- `Civilization.get_food_per_capita`: `0` for an empty population,
otherwise `food / population` (true division, modelled over `ℚ`). -/
def get_food_per_capita (c : Civilization) : ℚ :=
  if c.population = 0 then 0 else (c.food : ℚ) / (c.population : ℚ)

/-- `Civilization.update_state`: the FSM transition function.  It consumes
one random draw exactly when it reaches the non-expansionist arm of the
expansion rule (mirroring when `random.random()` is evaluated). -/
def update_state (c : Civilization) (nearby : List Civilization) (g : Rng) :
    Civilization × Rng :=
  if ¬ c.is_alive then (c, g)
  else
    let fpc := c.get_food_per_capita
    if fpc < FOOD_STARVING then ({ c with state := CivilizationState.hunting }, g)
    else if fpc < FOOD_LOW then ({ c with state := CivilizationState.gathering }, g)
    else if ¬ nearby.isEmpty ∧ c.state ≠ CivilizationState.diplomacy ∧
        nearby.any (fun o => (c.relations o.name).isNone) then
      ({ c with state := CivilizationState.diplomacy }, g)
    else if fpc > FOOD_EXCESS ∧ c.territory.length < 30 then
      if c.personality = PersonalityTrait.expansionist ∨
          c.personality = PersonalityTrait.aggressive then
        ({ c with state := CivilizationState.expanding }, g)
      else
        let (q, g1) := g.next
        if q < 3 / 10 then ({ c with state := CivilizationState.expanding }, g1)
        else ({ c with state := CivilizationState.idle }, g1)
    else ({ c with state := CivilizationState.idle }, g)

/-- `Civilization._action_idle`: consume food, recover morale. -/
def action_idle (c : Civilization) : Civilization :=
  let food_consumed := max 1 (Int.fdiv c.population 20)
  let food1 := max 0 (c.food - food_consumed)
  let morale1 := if food1 > 50 then min 100 (c.morale + 2) else min 100 (c.morale + 1)
  { c with food := food1, morale := morale1 }

/-- Harvest up to `amount` food from each territory cell in order, mutating
the world and accumulating the total harvested (the loop shared by
`_action_hunt` and `_action_gather`). -/
def harvestLoop (w : World) (amount : ℤ) : List (ℤ × ℤ) → World × ℤ
  | [] => (w, 0)
  | p :: rest =>
    match w.get_cell p.1 p.2 with
    | some cell =>
      let hc := cell.harvest_food amount
      let (w1, total) := harvestLoop (w.setCell p hc.2) amount rest
      (w1, hc.1 + total)
    | none => harvestLoop w amount rest

/-- `Civilization._action_hunt`: harvest 20 per owned cell, consume
`max(1, population // 30)`, clamp food at zero, `+1` morale if anything was
harvested. -/
def action_hunt (c : Civilization) (w : World) : Civilization × World :=
  let hw := harvestLoop w 20 c.territory
  let food_consumed := max 1 (Int.fdiv c.population 30)
  let food1 := max 0 (c.food + hw.2 - food_consumed)
  let morale1 := if hw.2 > 0 then min 100 (c.morale + 1) else c.morale
  ({ c with food := food1, morale := morale1 }, hw.1)

/-- `Civilization._action_gather`: harvest 12 per owned cell, consume
`max(1, population // 25)`, clamp food at zero, `+1` morale if anything was
harvested. -/
def action_gather (c : Civilization) (w : World) : Civilization × World :=
  let hw := harvestLoop w 12 c.territory
  let food_consumed := max 1 (Int.fdiv c.population 25)
  let food1 := max 0 (c.food + hw.2 - food_consumed)
  let morale1 := if hw.2 > 0 then min 100 (c.morale + 1) else c.morale
  ({ c with food := food1, morale := morale1 }, hw.1)

/-- The first passable, unclaimed neighbor (with its grid key) of the first
territory cell that has one — the cell `_action_expand` claims. -/
def findClaim (w : World) : List (ℤ × ℤ) → Option ((ℤ × ℤ) × Cell)
  | [] => none
  | p :: rest =>
    match (w.passableNeighborsK p.1 p.2).find? (fun kc => kc.2.owner = none) with
    | some kc => some kc
    | none => findClaim w rest

/-- `Civilization._action_expand`: claim the first passable unclaimed
neighbor found scanning the territory in order; mark its owner, append its
coordinates to the territory, deduct 10 food; at most one claim per call. -/
def action_expand (c : Civilization) (w : World) : Civilization × World :=
  match findClaim w c.territory with
  | some kc =>
    let w1 := w.setCell kc.1 { kc.2 with owner := some c.name }
    ({ c with territory := c.territory ++ [(kc.2.x, kc.2.y)], food := c.food - 10 }, w1)
  | none => (c, w)

/-- The personality-compatibility table in
`Civilization._calculate_initial_relations`. -/
def compatLookup (p q : PersonalityTrait) : Option ℤ :=
  match p, q with
  | PersonalityTrait.peaceful, PersonalityTrait.peaceful => some 30
  | PersonalityTrait.peaceful, PersonalityTrait.trading => some 25
  | PersonalityTrait.trading, PersonalityTrait.trading => some 20
  | PersonalityTrait.aggressive, PersonalityTrait.aggressive => some (-30)
  | PersonalityTrait.aggressive, PersonalityTrait.peaceful => some (-10)
  | PersonalityTrait.expansionist, PersonalityTrait.expansionist => some (-20)
  | PersonalityTrait.isolationist, PersonalityTrait.isolationist => some 10
  | _, _ => none

/-- `compatibility.get(pair, compatibility.get(reverse_pair, 0))`. -/
def compatModifier (p q : PersonalityTrait) : ℤ :=
  (compatLookup p q).getD ((compatLookup q p).getD 0)

/-- `Civilization._calculate_initial_relations` with the `randint(-15, 15)`
term already drawn: `max(0, min(100, 50 + modifier + r))`. -/
def calc_initial_relations (c other : Civilization) (r : ℤ) : ℤ :=
  max 0 (min 100 (50 + compatModifier c.personality other.personality + r))

/-- `Civilization._action_diplomacy`: establish a symmetric relation with
the first nearby civilization lacking one; if none remains, fall back to
`Idle`.  Returns the updated self, the `(other-name, score)` write that the
Python code performs on the other object's `relations` dict (if any), and
the random source. -/
def action_diplomacy (c : Civilization) (nearby : List Civilization) (g : Rng) :
    Civilization × Option (String × ℤ) × Rng :=
  match nearby.find? (fun o => (c.relations o.name).isNone) with
  | some other =>
    let (q, g1) := g.next
    let r := randInt (-15) 15 q
    let score := calc_initial_relations c other r
    let rel1 := fun n => if n = other.name then some score else c.relations n
    ({ c with relations := rel1 }, some (other.name, score), g1)
  | none => ({ c with state := CivilizationState.idle }, none, g)

/-- `Civilization._action_defend`: `morale = max(0, morale - 2)`. -/
def action_defend (c : Civilization) : Civilization :=
  { c with morale := max 0 (c.morale - 2) }

/-- `Civilization.execute_action`: dispatch on the current state.  The
Python dispatch dict has no entry for `COLLAPSED`, so `dict.get` falls back
to `_action_idle` there.  Returns (self, world, relation write to another
civilization, random source). -/
def execute_action (c : Civilization) (nearby : List Civilization) (w : World)
    (g : Rng) : Civilization × World × Option (String × ℤ) × Rng :=
  if ¬ c.is_alive then (c, w, none, g)
  else
    match c.state with
    | CivilizationState.idle => (c.action_idle, w, none, g)
    | CivilizationState.hunting =>
      let cw := c.action_hunt w
      (cw.1, cw.2, none, g)
    | CivilizationState.gathering =>
      let cw := c.action_gather w
      (cw.1, cw.2, none, g)
    | CivilizationState.expanding =>
      let cw := c.action_expand w
      (cw.1, cw.2, none, g)
    | CivilizationState.diplomacy =>
      let cug := c.action_diplomacy nearby g
      (cug.1, w, cug.2.1, cug.2.2)
    | CivilizationState.defending => (c.action_defend, w, none, g)
    | CivilizationState.collapsed => (c.action_idle, w, none, g)

/-- `Civilization.process_population_changes`: starvation deaths or births,
an independent natural-death roll, then the collapse checks. -/
def process_population_changes (c : Civilization) (g : Rng) :
    Civilization × Rng :=
  if ¬ c.is_alive then (c, g)
  else
    let fpc := c.get_food_per_capita
    let c1 :=
      if fpc < 3 / 10 then
        let deaths := pyTrunc ((c.population : ℚ) * (2 / 100))
        { c with population := max 0 (c.population - deaths), morale := max 0 (c.morale - 3) }
      else if fpc > 2 ∧ c.morale > 50 then
        let births := pyTrunc ((c.population : ℚ) * (1 / 100))
        { c with population := c.population + max 1 births }
      else c
    let (q, g1) := g.next
    let c2 :=
      if q < 1 / 10 then
        let natural_deaths := max 0 (pyTrunc ((c1.population : ℚ) * (2 / 1000)))
        { c1 with population := max 0 (c1.population - natural_deaths) }
      else c1
    if c2.population < POPULATION_MIN then
      ({ c2 with is_alive := false, state := CivilizationState.collapsed,
                 death_cause := some "population collapse" }, g1)
    else if c2.morale < MORALE_CRITICAL then
      let (q2, g2) := g1.next
      if q2 < 5 / 1000 then
        ({ c2 with is_alive := false, state := CivilizationState.collapsed,
                   death_cause := some "civil unrest" }, g2)
      else (c2, g2)
    else (c2, g1)

/-- The loop body of `Civilization._claim_starting_territory`: claim each
passable unclaimed in-grid cell of the given coordinate list in order. -/
def claimLoop (c : Civilization) (w : World) : List (ℤ × ℤ) → Civilization × World
  | [] => (c, w)
  | p :: rest =>
    match w.get_cell p.1 p.2 with
    | some cell =>
      if cell.is_passable ∧ cell.owner = none then
        claimLoop { c with territory := c.territory ++ [(cell.x, cell.y)] }
          (w.setCell p { cell with owner := some c.name }) rest
      else claimLoop c w rest
    | none => claimLoop c w rest

/-- The 3×3 block offsets of `_claim_starting_territory`, in `dx` (outer) /
`dy` (inner) iteration order. -/
def startOffsets : List (ℤ × ℤ) :=
  [(-1, -1), (-1, 0), (-1, 1), (0, -1), (0, 0), (0, 1), (1, -1), (1, 0), (1, 1)]

/-- `Civilization._claim_starting_territory`: claim the passable unclaimed
cells of the 3×3 block around the capital. -/
def claim_starting_territory (c : Civilization) (x y : ℤ) (w : World) :
    Civilization × World :=
  claimLoop c w (startOffsets.map fun d => (x + d.1, y + d.2))

end Civilization

/-- `[-r..r]` as integers, in ascending order. -/
def rangeOff (r : ℕ) : List ℤ :=
  (List.range (2 * r + 1)).map fun i : ℕ => (i : ℤ) - (r : ℤ)

/-- The `(dx, dy)` offsets of a `(2r+1) × (2r+1)` event region, `dx` outer
loop, `dy` inner loop (as in `DroughtEvent.execute` with `r = 3` and
`BountifulHarvestEvent.execute` with `r = 2`). -/
def regionOffsets (r : ℕ) : List (ℤ × ℤ) :=
  (rangeOff r).flatMap fun dx => (rangeOff r).map fun dy => (dx, dy)

/-- The per-cell loop of `DroughtEvent.execute`:
`cell.food_resource = max(0, cell.food_resource - 30)` on in-grid cells. -/
def droughtLoop (w : World) : List (ℤ × ℤ) → World
  | [] => w
  | p :: rest =>
    match w.get_cell p.1 p.2 with
    | some cell =>
      droughtLoop (w.setCell p { cell with food_resource := max 0 (cell.food_resource - 30) }) rest
    | none => droughtLoop w rest

/-- The full cell sweep of a drought centered at `(cx, cy)`: the 7×7 block
around the center, clipped to the grid. -/
def droughtAt (w : World) (cx cy : ℤ) : World :=
  droughtLoop w ((regionOffsets 3).map fun d => (cx + d.1, cy + d.2))

/-- `DroughtEvent.execute`: pick a random center, then hit the 7×7 block
around it.  The civilization list is returned untouched: the Python method
never reads or writes it. -/
def droughtExecute (w : World) (civs : List Civilization) (g : Rng) :
    World × List Civilization × Rng :=
  let (qx, g1) := g.next
  let cx := randInt 0 (w.width - 1) qx
  let (qy, g2) := g1.next
  let cy := randInt 0 (w.height - 1) qy
  (droughtAt w cx cy, civs, g2)

/-- The per-cell loop of `BountifulHarvestEvent.execute`:
`cell.food_resource = min(cell.max_food * 2, cell.food_resource + 50)`. -/
def bountifulLoop (w : World) : List (ℤ × ℤ) → World
  | [] => w
  | p :: rest =>
    match w.get_cell p.1 p.2 with
    | some cell =>
      bountifulLoop (w.setCell p { cell with food_resource := min (cell.max_food * 2) (cell.food_resource + 50) }) rest
    | none => bountifulLoop w rest

/-- `BountifulHarvestEvent.execute`: pick a random center, then enrich the
5×5 block around it. -/
def bountifulExecute (w : World) (civs : List Civilization) (g : Rng) :
    World × List Civilization × Rng :=
  let (qx, g1) := g.next
  let cx := randInt 0 (w.width - 1) qx
  let (qy, g2) := g1.next
  let cy := randInt 0 (w.height - 1) qy
  (bountifulLoop w ((regionOffsets 2).map fun d => (cx + d.1, cy + d.2)), civs, g2)

/-- Mutate the civilization whose name matches (Python mutates the chosen
object in place; names are unique identities). -/
def updateByName (civs : List Civilization) (name : String)
    (f : Civilization → Civilization) : List Civilization :=
  civs.map fun c => if c.name = name then f c else c

/-- `PlagueEvent.execute`: a random living civilization loses
`int(population * uniform(0.1, 0.3))` people (floored at 10) and 20 morale;
a no-op when no civilization is alive. -/
def plagueExecute (w : World) (civs : List Civilization) (g : Rng) :
    World × List Civilization × Rng :=
  match civs.filter (fun c => c.is_alive) with
  | [] => (w, civs, g)
  | a :: rest =>
    let living := a :: rest
    let (q1, g1) := g.next
    let target := living.getD (pickIdx q1 living.length) a
    let (q2, g2) := g1.next
    let deaths := pyTrunc ((target.population : ℚ) * randUniform (1 / 10) (3 / 10) q2)
    let f := fun c : Civilization =>
      { c with population := max 10 (target.population - deaths),
               morale := max 0 (target.morale - 20) }
    (w, updateByName civs target.name f, g2)

/-- `TechnologicalDiscoveryEvent.execute`: a random living civilization
gains a tech level and 10 morale (capped at 100); the discovery-name draw is
consumed but only feeds the chronicle. -/
def techExecute (w : World) (civs : List Civilization) (g : Rng) :
    World × List Civilization × Rng :=
  match civs.filter (fun c => c.is_alive) with
  | [] => (w, civs, g)
  | a :: rest =>
    let living := a :: rest
    let (q1, g1) := g.next
    let target := living.getD (pickIdx q1 living.length) a
    let f := fun c : Civilization =>
      { c with tech_level := target.tech_level + 1,
               morale := min 100 (target.morale + 10) }
    let (_, g2) := g1.next
    (w, updateByName civs target.name f, g2)

/-- `MoraleCrisisEvent.execute`: a random living civilization loses
`randint(5, 15)` morale (floored at 0); the crisis-name draw is consumed but
only feeds the chronicle. -/
def moraleCrisisExecute (w : World) (civs : List Civilization) (g : Rng) :
    World × List Civilization × Rng :=
  match civs.filter (fun c => c.is_alive) with
  | [] => (w, civs, g)
  | a :: rest =>
    let living := a :: rest
    let (q1, g1) := g.next
    let target := living.getD (pickIdx q1 living.length) a
    let (q2, g2) := g1.next
    let morale_loss := randInt 5 15 q2
    let f := fun c : Civilization => { c with morale := max 0 (target.morale - morale_loss) }
    let (_, g3) := g2.next
    (w, updateByName civs target.name f, g3)

/-- One iteration of the `EventManager.process_events` loop:
`should_trigger` draws one value and compares it against the event's
probability, and a firing event executes. -/
def eventStage (prob : ℚ)
    (exec : World → List Civilization → Rng → World × List Civilization × Rng)
    (wcg : World × List Civilization × Rng) : World × List Civilization × Rng :=
  if wcg.2.2.next.1 < prob then exec wcg.1 wcg.2.1 wcg.2.2.next.2
  else (wcg.1, wcg.2.1, wcg.2.2.next.2)

/-- `EventManager.process_events`: roll each event's trigger in roster
order (drought 0.001, harvest 0.002, plague 0.0005, discovery 0.001, morale
crisis 0.0003), executing those that fire. -/
def processEvents (w : World) (civs : List Civilization) (g : Rng) :
    World × List Civilization × Rng :=
  eventStage (3 / 10000) moraleCrisisExecute
    (eventStage (1 / 1000) techExecute
      (eventStage (5 / 10000) plagueExecute
        (eventStage (2 / 1000) bountifulExecute
          (eventStage (1 / 1000) droughtExecute (w, civs, g)))))

/-- Is `other` nearby to `civ`?  (`Simulation.get_nearby_civilizations`:
some territory cell of `civ` has an 8-neighbor owned by `other`, and `other`
is a different, living civilization.) -/
def isNearbyTo (w : World) (civ other : Civilization) : Bool :=
  decide (other.name ≠ civ.name) && other.is_alive &&
    civ.territory.any fun p =>
      (w.get_neighbors p.1 p.2).any fun nb => decide (nb.owner = some other.name)

/-- `Simulation.get_nearby_civilizations`, preserving list order. -/
def nearbyCivilizations (w : World) (civs : List Civilization)
    (civ : Civilization) : List Civilization :=
  civs.filter (isNearbyTo w civ)

/-- The relation write a Diplomacy action performs on the other
civilization's object (`other.relations[self.name] = relation_score`),
applied to one list entry: only the entry whose name matches receives it. -/
def relWriteTo (selfName : String) (us : String × ℤ) (o : Civilization) : Civilization :=
  if o.name = us.1 then
    { o with relations := fun n => if n = selfName then some us.2 else o.relations n }
  else o

/-- Apply the relation write of a Diplomacy action, if any, to a list of
civilizations. -/
def applyRelWrite (selfName : String) (upd : Option (String × ℤ))
    (civs : List Civilization) : List Civilization :=
  match upd with
  | none => civs
  | some us => civs.map (relWriteTo selfName us)

/-- `applyRelWrite` never changes how many civilizations there are. -/
theorem applyRelWrite_length (selfName : String) (upd : Option (String × ℤ))
    (civs : List Civilization) : (applyRelWrite selfName upd civs).length = civs.length := by
  cases upd <;> simp [applyRelWrite]

/-- Phase 3 of `Simulation.tick`: for each living civilization in list
order, compute its nearby list, run the FSM transition, then execute its
action; `done` accumulates the already-processed head of the list. -/
def civPhase : World → List Civilization → List Civilization → Rng →
    World × List Civilization × Rng
  | w, done, [], g => (w, done, g)
  | w, done, c :: rest, g =>
    if ¬ c.is_alive then civPhase w (done ++ [c]) rest g
    else
      let nearby := nearbyCivilizations w (done ++ c :: rest) c
      let ug := Civilization.update_state c nearby g
      let r := Civilization.execute_action ug.1 nearby w ug.2
      civPhase r.2.1 (applyRelWrite r.1.name r.2.2.1 done ++ [r.1])
        (applyRelWrite r.1.name r.2.2.1 rest) r.2.2.2
termination_by _ _ pending _ => pending.length
decreasing_by
  all_goals simp [applyRelWrite_length]

/-- Phase 5 of `Simulation.tick`: population dynamics for every
civilization in list order. -/
def popPhase : List Civilization → Rng → List Civilization × Rng
  | [], g => ([], g)
  | c :: rest, g =>
    let cg := c.process_population_changes g
    let rg := popPhase rest cg.2
    (cg.1 :: rg.1, rg.2)

/-- The simulation engine state (`Simulation` in `simulation.py`; the
chronicle is an external sink and carries no engine state). -/
structure Simulation where
  world : World
  civilizations : List Civilization

namespace Simulation

/-- `Simulation.tick`: climate → resources → civilization actions → random
events → population changes → advance day. -/
def tick (s : Simulation) (g : Rng) : Simulation × Rng :=
  let w2 := s.world.update_climate.update_resources
  let r := civPhase w2 [] s.civilizations g
  let e := processEvents r.1 r.2.1 r.2.2
  let p := popPhase e.2.1 e.2.2
  ({ world := e.1.advance_day, civilizations := p.1 }, p.2)

/-- `Simulation.run`: tick up to `days` times, stopping early once every
civilization is dead.  The returned rational is the total presentation
delay slept (`time.sleep(delay)` once per completed non-final iteration);
status display reads state but never writes it. -/
def runLoop : Simulation → Rng → ℕ → ℚ → (Simulation × Rng) × ℚ
  | s, g, 0, _ => ((s, g), 0)
  | s, g, days + 1, delay =>
    let sg := tick s g
    if (sg.1.civilizations.filter (fun c => c.is_alive)).isEmpty then (sg, 0)
    else
      let r := runLoop sg.1 sg.2 days delay
      (r.1, r.2 + (if delay > 0 then delay else 0))

end Simulation

/-- The acceptance test for a randomized starting position in
`Simulation.add_civilization`: an in-grid, passable, unclaimed cell at
Manhattan distance at least 6 from every existing capital. -/
def acceptStart (w : World) (civs : List Civilization) (x y : ℤ) : Bool :=
  match w.get_cell x y with
  | some cell =>
    cell.is_passable && decide (cell.owner = none) &&
      civs.all fun c => decide (¬ (|x - c.capital.1| + |y - c.capital.2| < 6))
  | none => false

/-- The candidate search loop of `Simulation.add_civilization`: draw up to
`attempts` random positions in `[2, width-3] × [2, height-3]`, returning the
first accepted one, or `none` (the Python code raises `ValueError`) when all
attempts fail. -/
def findStartPos (w : World) (civs : List Civilization) :
    ℕ → Rng → Option ((ℤ × ℤ) × Rng)
  | 0, _ => none
  | attempts + 1, g =>
    let x := randInt 2 (w.width - 3) g.next.1
    let y := randInt 2 (w.height - 3) g.next.2.next.1
    if acceptStart w civs x y then some ((x, y), g.next.2.next.2)
    else findStartPos w civs attempts g.next.2.next.2

/-- `Civilization.__init__`: draw population, morale and personality, then
claim the 3×3 starting territory. -/
def mkCivilization (name : String) (x y : ℤ) (w : World) (g : Rng) :
    Civilization × World × Rng :=
  let (q1, g1) := g.next
  let pop := randInt 30 60 q1
  let (q2, g2) := g1.next
  let mor := randInt 70 90 q2
  let (q3, g3) := g2.next
  let traits := [PersonalityTrait.aggressive, PersonalityTrait.peaceful,
    PersonalityTrait.isolationist, PersonalityTrait.expansionist, PersonalityTrait.trading]
  let c0 : Civilization :=
    { name := name, population := pop, food := 200, morale := mor, tech_level := 1,
      state := CivilizationState.idle,
      personality := traits.getD (pickIdx q3 5) PersonalityTrait.aggressive,
      capital := (x, y), territory := [], relations := fun _ => none,
      is_alive := true, death_cause := none }
  let cw := Civilization.claim_starting_territory c0 x y w
  (cw.1, cw.2, g3)

/-- `Simulation.add_civilization` on the randomized-position path (explicit
coordinates bypass the search): locate a valid start with at most 100
candidates, then construct the civilization; `none` models the raised
`ValueError`. -/
def Simulation.add_civilization (s : Simulation) (name : String) (g : Rng) :
    Option (Simulation × Rng) :=
  match findStartPos s.world s.civilizations 100 g with
  | some pg =>
    let cwg := mkCivilization name pg.1.1 pg.1.2 s.world pg.2
    some ({ world := cwg.2.1, civilizations := s.civilizations ++ [cwg.1] }, cwg.2.2)
  | none => none

/-! ### Basic facts about the random-draw primitives -/

theorem pyTrunc_eq_floor (q : ℚ) (h : 0 ≤ q) : pyTrunc q = ⌊q⌋ :=
  if_pos h

theorem pyTrunc_nonneg (q : ℚ) (h : 0 ≤ q) : 0 ≤ pyTrunc q := by
  rw [pyTrunc_eq_floor q h]
  exact Int.floor_nonneg.mpr h

/-- A `randint(a, b)` value really lies in `[a, b]` whenever the raw draw
lies in `[0, 1)`. -/
theorem randInt_bounds (a b : ℤ) (q : ℚ) (h0 : 0 ≤ q) (h1 : q < 1)
    (hab : a ≤ b) : a ≤ randInt a b q ∧ randInt a b q ≤ b := by
  have hab' : (a : ℚ) ≤ (b : ℚ) := by exact_mod_cast hab
  have hcast : ((b : ℚ) - (a : ℚ) + 1) = ((b - a + 1 : ℤ) : ℚ) := by
    push_cast
    ring
  have hpos : (0 : ℚ) < ((b - a + 1 : ℤ) : ℚ) := by
    push_cast
    linarith
  have hq : 0 ≤ q * ((b - a + 1 : ℤ) : ℚ) := mul_nonneg h0 (le_of_lt hpos)
  have hlt : q * ((b - a + 1 : ℤ) : ℚ) < ((b - a + 1 : ℤ) : ℚ) := by
    calc q * ((b - a + 1 : ℤ) : ℚ) < 1 * ((b - a + 1 : ℤ) : ℚ) :=
          mul_lt_mul_of_pos_right h1 hpos
      _ = ((b - a + 1 : ℤ) : ℚ) := one_mul _
  have hfl : pyTrunc (q * ((b - a + 1 : ℤ) : ℚ)) < b - a + 1 := by
    rw [pyTrunc_eq_floor _ hq]
    exact Int.floor_lt.mpr hlt
  have hge := pyTrunc_nonneg _ hq
  unfold randInt
  rw [hcast]
  omega

/-! ### The cell food invariant (claims C2 and C10) -/

/-- The cell invariant of the spec: a nonnegative food ceiling, and a food
stock between `0` and twice the ceiling. -/
def cellOK (c : Cell) : Prop :=
  0 ≤ c.max_food ∧ 0 ≤ c.food_resource ∧ c.food_resource ≤ 2 * c.max_food

instance (c : Cell) : Decidable (cellOK c) := by
  unfold cellOK; infer_instance

theorem harvest_food_cellOK (c : Cell) (amount : ℤ) (ha : 0 ≤ amount)
    (h : cellOK c) : cellOK (c.harvest_food amount).2 := by
  obtain ⟨h1, h2, h3⟩ := h
  refine ⟨h1, ?_, ?_⟩
  · show 0 ≤ c.food_resource - min amount c.food_resource
    omega
  · show c.food_resource - min amount c.food_resource ≤ 2 * c.max_food
    omega

theorem regenerate_food_cellOK (c : Cell) (rate : ℚ) (hr : 0 ≤ rate)
    (h : cellOK c) : cellOK (c.regenerate_food rate) := by
  obtain ⟨h1, h2, h3⟩ := h
  unfold Cell.regenerate_food
  split
  · have hg : 0 ≤ pyTrunc ((c.max_food : ℚ) * rate) := by
      apply pyTrunc_nonneg
      have : (0 : ℚ) ≤ (c.max_food : ℚ) := by exact_mod_cast h1
      exact mul_nonneg this hr
    refine ⟨h1, ?_, ?_⟩
    · show 0 ≤ min c.max_food (c.food_resource + pyTrunc ((c.max_food : ℚ) * rate))
      omega
    · show min c.max_food (c.food_resource + pyTrunc ((c.max_food : ℚ) * rate)) ≤ 2 * c.max_food
      omega
  · exact ⟨h1, h2, h3⟩

/-- Water cells never regenerate: `regenerate_food` is the identity there. -/
theorem regenerate_food_water (c : Cell) (rate : ℚ)
    (hw : c.terrain = TerrainType.water) : c.regenerate_food rate = c := by
  unfold Cell.regenerate_food
  simp [hw]

/-- Every in-grid cell satisfies the cell invariant. -/
def gridOK (w : World) : Prop :=
  ∀ p, w.inBounds p → cellOK (w.grid p)

theorem get_cell_some {w : World} {x y : ℤ} {c : Cell}
    (h : w.get_cell x y = some c) : w.inBounds (x, y) ∧ c = w.grid (x, y) := by
  unfold World.get_cell at h
  split at h
  · exact ⟨‹_›, (Option.some.inj h).symm⟩
  · cases h

theorem setCell_grid (w : World) (p : ℤ × ℤ) (c : Cell) (q : ℤ × ℤ) :
    (w.setCell p c).grid q = if q = p then c else w.grid q :=
  rfl

theorem setCell_inBounds (w : World) (p : ℤ × ℤ) (c : Cell) (q : ℤ × ℤ) :
    (w.setCell p c).inBounds q ↔ w.inBounds q :=
  Iff.rfl

/-- A `setCell` whose new cell satisfies the invariant preserves `gridOK`. -/
theorem setCell_gridOK {w : World} {p : ℤ × ℤ} {c : Cell}
    (hw : gridOK w) (hc : cellOK c) : gridOK (w.setCell p c) := by
  intro q hq
  rw [setCell_grid]
  split
  · exact hc
  · exact hw q hq

theorem update_resources_gridOK (w : World) (h : gridOK w) :
    gridOK w.update_resources := by
  intro p hp
  have hp' : w.inBounds p := hp
  show cellOK (if w.inBounds p then _ else w.grid p)
  rw [if_pos hp']
  apply regenerate_food_cellOK _ _ _ (h p hp')
  split <;> norm_num

theorem harvestLoop_gridOK (amount : ℤ) (ha : 0 ≤ amount) :
    ∀ (ps : List (ℤ × ℤ)) (w : World), gridOK w →
      gridOK (Civilization.harvestLoop w amount ps).1
  | [], _, h => h
  | p :: rest, w, h => by
    unfold Civilization.harvestLoop
    cases hc : w.get_cell p.1 p.2 with
    | none => exact harvestLoop_gridOK amount ha rest w h
    | some cell =>
      obtain ⟨hin, hcell⟩ := get_cell_some hc
      have hok : cellOK (cell.harvest_food amount).2 :=
        harvest_food_cellOK _ _ ha (hcell ▸ h _ hin)
      exact harvestLoop_gridOK amount ha rest _ (setCell_gridOK h hok)

theorem droughtLoop_gridOK :
    ∀ (ps : List (ℤ × ℤ)) (w : World), gridOK w → gridOK (droughtLoop w ps)
  | [], _, h => h
  | p :: rest, w, h => by
    unfold droughtLoop
    cases hc : w.get_cell p.1 p.2 with
    | none => exact droughtLoop_gridOK rest w h
    | some cell =>
      obtain ⟨hin, hcell⟩ := get_cell_some hc
      have hcO : cellOK cell := hcell ▸ h _ hin
      have hok : cellOK { cell with food_resource := max 0 (cell.food_resource - 30) } := by
        obtain ⟨h1, h2, h3⟩ := hcO
        exact ⟨h1, by simp, by simp; omega⟩
      exact droughtLoop_gridOK rest _ (setCell_gridOK h hok)

theorem bountifulLoop_gridOK :
    ∀ (ps : List (ℤ × ℤ)) (w : World), gridOK w → gridOK (bountifulLoop w ps)
  | [], _, h => h
  | p :: rest, w, h => by
    unfold bountifulLoop
    cases hc : w.get_cell p.1 p.2 with
    | none => exact bountifulLoop_gridOK rest w h
    | some cell =>
      obtain ⟨hin, hcell⟩ := get_cell_some hc
      have hcO : cellOK cell := hcell ▸ h _ hin
      have hok : cellOK { cell with food_resource := min (cell.max_food * 2) (cell.food_resource + 50) } := by
        obtain ⟨h1, h2, h3⟩ := hcO
        exact ⟨h1, by simp; omega, by simp; omega⟩
      exact bountifulLoop_gridOK rest _ (setCell_gridOK h hok)

/-- C2: after each food-mutating operation of a run — harvesting (any
nonnegative amount, in particular the run's 20 and 12), regeneration (any
nonnegative rate, in particular the run's seasonal rates, also world-wide),
a drought region sweep, and a bountiful-harvest region sweep — every cell
still satisfies `0 ≤ food_resource ≤ 2 * max_food`; and regenerating a
water cell is a no-op for every rate. -/
theorem c2_cell_food_invariant :
    (∀ (c : Cell) (amount : ℤ), 0 ≤ amount → cellOK c →
      cellOK (c.harvest_food amount).2) ∧
    (∀ (c : Cell) (rate : ℚ), 0 ≤ rate → cellOK c →
      cellOK (c.regenerate_food rate)) ∧
    (∀ w : World, gridOK w → gridOK w.update_resources) ∧
    (∀ (w : World) (amount : ℤ) (ps : List (ℤ × ℤ)), 0 ≤ amount → gridOK w →
      gridOK (Civilization.harvestLoop w amount ps).1) ∧
    (∀ (w : World) (ps : List (ℤ × ℤ)), gridOK w → gridOK (droughtLoop w ps)) ∧
    (∀ (w : World) (ps : List (ℤ × ℤ)), gridOK w → gridOK (bountifulLoop w ps)) ∧
    (∀ (c : Cell) (rate : ℚ), c.terrain = TerrainType.water →
      c.regenerate_food rate = c) :=
  ⟨harvest_food_cellOK,
   regenerate_food_cellOK,
   update_resources_gridOK,
   fun w amount ps ha h => harvestLoop_gridOK amount ha ps w h,
   fun w ps h => droughtLoop_gridOK ps w h,
   fun w ps h => bountifulLoop_gridOK ps w h,
   regenerate_food_water⟩

/-- A concrete plains cell used by witnesses. -/
def plainsCell : Cell :=
  ⟨0, 0, 50, 10, 10, TerrainType.plains, MineralType.none, 80, 100, none⟩

/-- A concrete water cell used by witnesses. -/
def waterCell : Cell :=
  ⟨0, 0, 5, 10, 10, TerrainType.water, MineralType.none, 90, 110, none⟩

/-- A concrete 2×2 world used by witnesses. -/
def smallWorld : World :=
  { width := 2, height := 2, grid := fun p => { plainsCell with x := p.1, y := p.2 },
    current_day := 0, current_year := 1 }

theorem smallWorld_gridOK : gridOK smallWorld := by
  intro p hp
  unfold cellOK smallWorld
  norm_num [plainsCell]

theorem c2_witness :
    cellOK ((plainsCell.harvest_food 20).2) ∧
    cellOK (plainsCell.regenerate_food (1 / 10)) ∧
    gridOK smallWorld.update_resources ∧
    gridOK (Civilization.harvestLoop smallWorld 20 [(0, 0), (1, 1)]).1 ∧
    gridOK (droughtLoop smallWorld [(0, 0)]) ∧
    gridOK (bountifulLoop smallWorld [(1, 0)]) ∧
    waterCell.regenerate_food (1 / 2) = waterCell :=
  ⟨c2_cell_food_invariant.1 plainsCell 20 (by decide) (by decide),
   c2_cell_food_invariant.2.1 plainsCell (1 / 10) (by norm_num) (by decide),
   c2_cell_food_invariant.2.2.1 smallWorld smallWorld_gridOK,
   c2_cell_food_invariant.2.2.2.1 smallWorld 20 [(0, 0), (1, 1)] (by decide) smallWorld_gridOK,
   c2_cell_food_invariant.2.2.2.2.1 smallWorld [(0, 0)] smallWorld_gridOK,
   c2_cell_food_invariant.2.2.2.2.2.1 smallWorld [(1, 0)] smallWorld_gridOK,
   c2_cell_food_invariant.2.2.2.2.2.2 waterCell (1 / 2) (by decide)⟩

/-- C10: on every non-water cell, for every (nonnegative) regeneration
rate, `regenerate_food` sets the food stock to
`min(max_food, food + ⌊max_food * rate⌋)`; consequently a stock previously
pushed above the ceiling comes back down to exactly the ceiling —
regeneration can strictly decrease food. -/
theorem c10_regenerate_food_formula :
    (∀ (c : Cell) (rate : ℚ), c.terrain ≠ TerrainType.water → 0 ≤ rate →
      0 ≤ c.max_food →
      (c.regenerate_food rate).food_resource
        = min c.max_food (c.food_resource + ⌊(c.max_food : ℚ) * rate⌋)) ∧
    (∀ (c : Cell) (rate : ℚ), c.terrain ≠ TerrainType.water → 0 ≤ rate →
      0 ≤ c.max_food → c.max_food < c.food_resource →
      (c.regenerate_food rate).food_resource = c.max_food ∧
      (c.regenerate_food rate).food_resource < c.food_resource) := by
  have key : ∀ (c : Cell) (rate : ℚ), c.terrain ≠ TerrainType.water → 0 ≤ rate →
      0 ≤ c.max_food →
      (c.regenerate_food rate).food_resource
        = min c.max_food (c.food_resource + ⌊(c.max_food : ℚ) * rate⌋) := by
    intro c rate hw hr hm
    unfold Cell.regenerate_food
    rw [if_pos hw]
    show min c.max_food (c.food_resource + pyTrunc ((c.max_food : ℚ) * rate)) = _
    rw [pyTrunc_eq_floor]
    exact mul_nonneg (by exact_mod_cast hm) hr
  refine ⟨key, fun c rate hw hr hm hover => ?_⟩
  have hg : 0 ≤ ⌊(c.max_food : ℚ) * rate⌋ :=
    Int.floor_nonneg.mpr (mul_nonneg (by exact_mod_cast hm) hr)
  rw [key c rate hw hr hm]
  omega

theorem c10_witness :
    plainsCell.terrain ≠ TerrainType.water ∧
    ({ plainsCell with food_resource := 180 }.regenerate_food (1 / 10)).food_resource = 100 ∧
    ({ plainsCell with food_resource := 180 }.regenerate_food (1 / 10)).food_resource < 180 := by
  have h := c10_regenerate_food_formula.2 { plainsCell with food_resource := 180 } (1 / 10)
    (by decide) (by norm_num) (by decide) (by decide)
  exact ⟨by decide, h.1, h.2⟩

/-! ### The drought frame effect (claim C7) -/

theorem mem_rangeOff {r : ℕ} {z : ℤ} :
    z ∈ rangeOff r ↔ -(r : ℤ) ≤ z ∧ z ≤ (r : ℤ) := by
  unfold rangeOff
  rw [List.mem_map]
  constructor
  · rintro ⟨i, hi, rfl⟩
    rw [List.mem_range] at hi
    omega
  · rintro ⟨h1, h2⟩
    refine ⟨(z + r).toNat, ?_, ?_⟩
    · rw [List.mem_range]
      omega
    · omega

theorem mem_regionOffsets {r : ℕ} {d : ℤ × ℤ} :
    d ∈ regionOffsets r ↔
      -(r : ℤ) ≤ d.1 ∧ d.1 ≤ (r : ℤ) ∧ -(r : ℤ) ≤ d.2 ∧ d.2 ≤ (r : ℤ) := by
  unfold regionOffsets
  simp only [List.mem_flatMap, List.mem_map]
  constructor
  · rintro ⟨dx, hdx, dy, hdy, rfl⟩
    have h1 := mem_rangeOff.mp hdx
    have h2 := mem_rangeOff.mp hdy
    exact ⟨h1.1, h1.2, h2.1, h2.2⟩
  · rintro ⟨h1, h2, h3, h4⟩
    exact ⟨d.1, mem_rangeOff.mpr ⟨h1, h2⟩, d.2, mem_rangeOff.mpr ⟨h3, h4⟩, rfl⟩

/-- Membership in the shifted 7×7 (or `(2r+1)²`) region around a center. -/
theorem mem_shiftRegion {r : ℕ} {cx cy : ℤ} {p : ℤ × ℤ} :
    p ∈ (regionOffsets r).map (fun d => (cx + d.1, cy + d.2)) ↔
      cx - r ≤ p.1 ∧ p.1 ≤ cx + r ∧ cy - r ≤ p.2 ∧ p.2 ≤ cy + r := by
  simp only [List.mem_map]
  constructor
  · rintro ⟨d, hd, rfl⟩
    obtain ⟨h1, h2, h3, h4⟩ := mem_regionOffsets.mp hd
    refine ⟨?_, ?_, ?_, ?_⟩ <;> simp <;> omega
  · intro h
    refine ⟨(p.1 - cx, p.2 - cy), mem_regionOffsets.mpr ⟨?_, ?_, ?_, ?_⟩, ?_⟩
    · simp; omega
    · simp; omega
    · simp; omega
    · simp; omega
    · have e1 : cx + (p.1 - cx, p.2 - cy).1 = p.1 := by simp
      have e2 : cy + (p.1 - cx, p.2 - cy).2 = p.2 := by simp
      rw [e1, e2]

theorem regionOffsets3_nodup : (regionOffsets 3).Nodup := by decide


theorem shiftRegion_nodup {r : ℕ} (hr : (regionOffsets r).Nodup) (cx cy : ℤ) :
    ((regionOffsets r).map (fun d => (cx + d.1, cy + d.2))).Nodup := by
  refine List.Nodup.map ?_ hr
  intro a b h
  cases a
  cases b
  simp only [Prod.mk.injEq] at h ⊢
  omega

theorem droughtLoop_dims : ∀ (ps : List (ℤ × ℤ)) (w : World),
    (droughtLoop w ps).width = w.width ∧ (droughtLoop w ps).height = w.height
  | [], _ => ⟨rfl, rfl⟩
  | q :: rest, w => by
    unfold droughtLoop
    cases hc : w.get_cell q.1 q.2 with
    | none => exact droughtLoop_dims rest w
    | some cell => exact droughtLoop_dims rest _

theorem droughtLoop_grid_notmem : ∀ (ps : List (ℤ × ℤ)) (w : World) (p : ℤ × ℤ),
    p ∉ ps → (droughtLoop w ps).grid p = w.grid p
  | [], _, _, _ => rfl
  | q :: rest, w, p, h => by
    have hne : p ≠ q := fun e => h (e ▸ List.mem_cons_self q rest)
    have hrest : p ∉ rest := fun hm => h (List.mem_cons_of_mem _ hm)
    unfold droughtLoop
    cases hc : w.get_cell q.1 q.2 with
    | none => exact droughtLoop_grid_notmem rest w p hrest
    | some cell =>
      rw [droughtLoop_grid_notmem rest _ p hrest, setCell_grid, if_neg hne]

theorem droughtLoop_grid_mem : ∀ (ps : List (ℤ × ℤ)) (w : World) (p : ℤ × ℤ),
    ps.Nodup → p ∈ ps → w.inBounds p →
    (droughtLoop w ps).grid p
      = { w.grid p with food_resource := max 0 ((w.grid p).food_resource - 30) }
  | [], _, _, _, hm, _ => absurd hm (List.not_mem_nil _)
  | q :: rest, w, p, hnd, hm, hb => by
    unfold droughtLoop
    rcases List.mem_cons.mp hm with rfl | hmr
    · have hnotin : p ∉ rest := (List.nodup_cons.mp hnd).1
      have hc : w.get_cell p.1 p.2 = some (w.grid p) := by
        unfold World.get_cell
        rw [if_pos hb]
      simp only [hc]
      rw [droughtLoop_grid_notmem rest _ p hnotin, setCell_grid, if_pos rfl]
    · have hqrest : q ∉ rest := (List.nodup_cons.mp hnd).1
      have hne : p ≠ q := fun e => hqrest (e ▸ hmr)
      have hnd' : rest.Nodup := (List.nodup_cons.mp hnd).2
      cases hc : w.get_cell q.1 q.2 with
      | none => exact droughtLoop_grid_mem rest w p hnd' hmr hb
      | some cell =>
        have hb' : (w.setCell q { cell with food_resource := max 0 (cell.food_resource - 30) }).inBounds p := hb
        rw [droughtLoop_grid_mem rest _ p hnd' hmr hb', setCell_grid, if_neg hne]

theorem droughtLoop_grid_notin_bounds : ∀ (ps : List (ℤ × ℤ)) (w : World) (p : ℤ × ℤ),
    ¬ w.inBounds p → (droughtLoop w ps).grid p = w.grid p
  | [], _, _, _ => rfl
  | q :: rest, w, p, h => by
    unfold droughtLoop
    cases hc : w.get_cell q.1 q.2 with
    | none => exact droughtLoop_grid_notin_bounds rest w p h
    | some cell =>
      obtain ⟨hin, _⟩ := get_cell_some hc
      have hne : p ≠ q := by
        rintro rfl
        exact h hin
      have h' : ¬ (w.setCell q { cell with food_resource := max 0 (cell.food_resource - 30) }).inBounds p := h
      rw [droughtLoop_grid_notin_bounds rest _ p h', setCell_grid, if_neg hne]

/-- C7: a drought centered at `(cx, cy)` reduces the food of every in-grid
cell whose coordinates are both within distance 3 of the center by exactly
`min(current food, 30)` (nothing else of the cell changes), leaves every
cell outside that 7×7 region (and every out-of-grid point) untouched, and
leaves the civilization list — populations, food, morale, territories —
completely unchanged. -/
theorem c7_drought_frame (w : World) (cx cy : ℤ) :
    (∀ p : ℤ × ℤ, w.inBounds p →
      |p.1 - cx| ≤ 3 → |p.2 - cy| ≤ 3 → 0 ≤ (w.grid p).food_resource →
      (droughtAt w cx cy).grid p
        = { w.grid p with food_resource :=
              (w.grid p).food_resource - min ((w.grid p).food_resource) 30 }) ∧
    (∀ p : ℤ × ℤ, ¬ (|p.1 - cx| ≤ 3 ∧ |p.2 - cy| ≤ 3) →
      (droughtAt w cx cy).grid p = w.grid p) ∧
    (∀ p : ℤ × ℤ, ¬ w.inBounds p → (droughtAt w cx cy).grid p = w.grid p) ∧
    (∀ (civs : List Civilization) (g : Rng),
      (droughtExecute w civs g).2.1 = civs) := by
  refine ⟨?_, ?_, ?_, ?_⟩
  · intro p hb h1 h2 hf
    rw [abs_le] at h1 h2
    have hmem : p ∈ (regionOffsets 3).map (fun d => (cx + d.1, cy + d.2)) := by
      rw [mem_shiftRegion]
      refine ⟨?_, ?_, ?_, ?_⟩ <;> (push_cast; omega)
    have := droughtLoop_grid_mem _ w p
      (shiftRegion_nodup regionOffsets3_nodup cx cy) hmem hb
    unfold droughtAt
    rw [this]
    have : max 0 ((w.grid p).food_resource - 30)
        = (w.grid p).food_resource - min ((w.grid p).food_resource) 30 := by omega
    rw [this]
  · intro p hreg
    rw [abs_le, abs_le] at hreg
    have hnm : p ∉ (regionOffsets 3).map (fun d => (cx + d.1, cy + d.2)) := by
      rw [mem_shiftRegion]
      push_cast
      omega
    exact droughtLoop_grid_notmem _ w p hnm
  · intro p hb
    by_cases hmem : p ∈ (regionOffsets 3).map (fun d => (cx + d.1, cy + d.2))
    · exact droughtLoop_grid_notin_bounds _ w p hb
    · exact droughtLoop_grid_notmem _ w p hmem
  · intro civs g
    rfl

/-- A fixed random stream used by witnesses. -/
def zeroRng : Rng :=
  ⟨0, fun _ => 0⟩

theorem c7_witness :
    smallWorld.inBounds (0, 0) ∧
    (droughtAt smallWorld 0 0).grid (0, 0) = { smallWorld.grid (0, 0) with food_resource := (smallWorld.grid (0, 0)).food_resource - min ((smallWorld.grid (0, 0)).food_resource) 30 } ∧
    (droughtAt smallWorld 0 0).grid (5, 5) = smallWorld.grid (5, 5) ∧
    (droughtExecute smallWorld [] zeroRng).2.1 = [] :=
  ⟨by decide,
   (c7_drought_frame smallWorld 0 0).1 (0, 0) (by decide) (by decide) (by decide) (by decide),
   (c7_drought_frame smallWorld 0 0).2.1 (5, 5) (by decide),
   (c7_drought_frame smallWorld 0 0).2.2.2 [] zeroRng⟩

/-! ### Starting-position search (claim C8) -/

theorem acceptStart_iff {w : World} {civs : List Civilization} {x y : ℤ}
    {cell : Cell} (hc : w.get_cell x y = some cell) :
    acceptStart w civs x y = true ↔
      cell.is_passable = true ∧ cell.owner = none ∧
      ∀ c ∈ civs, 6 ≤ |x - c.capital.1| + |y - c.capital.2| := by
  unfold acceptStart
  simp only [hc, Bool.and_eq_true, decide_eq_true_eq, List.all_eq_true, not_lt, and_assoc]

theorem findStartPos_sound (w : World) (civs : List Civilization) :
    ∀ (attempts : ℕ) (g : Rng) (p : (ℤ × ℤ) × Rng),
      findStartPos w civs attempts g = some p →
      acceptStart w civs p.1.1 p.1.2 = true
  | 0, _, _, h => by cases h
  | attempts + 1, g, p, h => by
    unfold findStartPos at h
    by_cases hacc : acceptStart w civs (randInt 2 (w.width - 3) g.next.1)
        (randInt 2 (w.height - 3) g.next.2.next.1) = true
    · simp only [hacc, if_true] at h
      cases Option.some.inj h
      exact hacc
    · simp only [hacc, if_false] at h
      exact findStartPos_sound w civs attempts _ p h

theorem findStartPos_none (w : World) (civs : List Civilization)
    (hfail : ∀ x y, acceptStart w civs x y = false) :
    ∀ (attempts : ℕ) (g : Rng), findStartPos w civs attempts g = none
  | 0, _ => rfl
  | attempts + 1, g => by
    unfold findStartPos
    simp only [hfail, Bool.false_eq_true, if_false]
    exact findStartPos_none w civs hfail attempts _

/-- C8: a randomized starting candidate is accepted only when it denotes an
in-grid, passable, unclaimed cell at Manhattan distance at least 6 from
every existing capital (so a candidate 5 cells from a capital is always
rejected, and one satisfying all three conditions — e.g. at distance ≥ 6 —
is accepted); and when no acceptable position exists the bounded 100-try
search, and with it `add_civilization`, signals failure instead of retrying
further. -/
theorem c8_add_civilization_placement :
    (∀ (w : World) (civs : List Civilization) (attempts : ℕ) (g : Rng)
      (p : (ℤ × ℤ) × Rng), findStartPos w civs attempts g = some p →
        ∃ cell, w.get_cell p.1.1 p.1.2 = some cell ∧ cell.is_passable = true ∧
          cell.owner = none ∧
          ∀ c ∈ civs, 6 ≤ |p.1.1 - c.capital.1| + |p.1.2 - c.capital.2|) ∧
    (∀ (w : World) (civs : List Civilization) (x y : ℤ) (c : Civilization),
      c ∈ civs → |x - c.capital.1| + |y - c.capital.2| < 6 →
      acceptStart w civs x y = false) ∧
    (∀ (w : World) (civs : List Civilization) (x y : ℤ) (cell : Cell),
      w.get_cell x y = some cell → cell.is_passable = true → cell.owner = none →
      (∀ c ∈ civs, 6 ≤ |x - c.capital.1| + |y - c.capital.2|) →
      acceptStart w civs x y = true) ∧
    (∀ (w : World) (civs : List Civilization) (g : Rng),
      (∀ x y, acceptStart w civs x y = false) →
      findStartPos w civs 100 g = none) ∧
    (∀ (s : Simulation) (name : String) (g : Rng),
      (∀ x y, acceptStart s.world s.civilizations x y = false) →
      s.add_civilization name g = none) := by
  have hsound : ∀ (w : World) (civs : List Civilization) (attempts : ℕ) (g : Rng)
      (p : (ℤ × ℤ) × Rng), findStartPos w civs attempts g = some p →
        ∃ cell, w.get_cell p.1.1 p.1.2 = some cell ∧ cell.is_passable = true ∧
          cell.owner = none ∧
          ∀ c ∈ civs, 6 ≤ |p.1.1 - c.capital.1| + |p.1.2 - c.capital.2| := by
    intro w civs attempts g p h
    have hacc := findStartPos_sound w civs attempts g p h
    cases hcell : w.get_cell p.1.1 p.1.2 with
    | none =>
      unfold acceptStart at hacc
      rw [hcell] at hacc
      cases hacc
    | some cell =>
      obtain ⟨h1, h2, h3⟩ := (acceptStart_iff hcell).mp hacc
      exact ⟨cell, rfl, h1, h2, h3⟩
  refine ⟨hsound, ?_, ?_, ?_, ?_⟩
  · intro w civs x y c hcmem hdist
    cases hcell : w.get_cell x y with
    | none =>
      unfold acceptStart
      rw [hcell]
    | some cell =>
      by_contra hne
      have : acceptStart w civs x y = true := by
        cases hacc : acceptStart w civs x y
        · exact absurd hacc hne
        · rfl
      have h6 := ((acceptStart_iff hcell).mp this).2.2 c hcmem
      omega
  · intro w civs x y cell hcell h1 h2 h3
    exact (acceptStart_iff hcell).mpr ⟨h1, h2, h3⟩
  · intro w civs g hfail
    exact findStartPos_none w civs hfail 100 g
  · intro s name g hfail
    unfold Simulation.add_civilization
    rw [findStartPos_none s.world s.civilizations hfail 100 g]

/-- A civilization record used only as a concrete witness input. -/
def witnessCiv : Civilization :=
  { name := "A", population := 40, food := 200, morale := 80, tech_level := 1,
    state := CivilizationState.idle, personality := PersonalityTrait.peaceful,
    capital := (5, 5), territory := [(1, 1)], relations := fun _ => none,
    is_alive := true, death_cause := none }

/-- A 2×2 world whose cells are all owned, so that no starting position is
acceptable. -/
def ownedWorld : World :=
  { width := 2, height := 2,
    grid := fun p => { plainsCell with x := p.1, y := p.2, owner := some "Z" },
    current_day := 0, current_year := 1 }

theorem ownedWorld_reject : ∀ x y, acceptStart ownedWorld [] x y = false := by
  intro x y
  unfold acceptStart
  cases hc : ownedWorld.get_cell x y with
  | none => rfl
  | some cell =>
    obtain ⟨_, hcell⟩ := get_cell_some hc
    subst hcell
    simp [ownedWorld, plainsCell, Cell.is_passable]

theorem c8_witness :
    acceptStart smallWorld [witnessCiv] 1 1 = true ∧
    acceptStart smallWorld [{ witnessCiv with capital := (1, 2) }] 1 1 = false ∧
    findStartPos ownedWorld [] 100 zeroRng = none ∧
    Simulation.add_civilization ⟨ownedWorld, []⟩ "B" zeroRng = none := by
  refine ⟨?_, ?_, ?_, ?_⟩
  · exact c8_add_civilization_placement.2.2.1 smallWorld [witnessCiv] 1 1
      (smallWorld.grid (1, 1)) (by decide) (by decide) (by decide) (by decide)
  · exact c8_add_civilization_placement.2.1 smallWorld
      [{ witnessCiv with capital := (1, 2) }] 1 1 _ (List.mem_singleton.mpr rfl) (by decide)
  · exact c8_add_civilization_placement.2.2.2.1 ownedWorld [] zeroRng ownedWorld_reject
  · exact c8_add_civilization_placement.2.2.2.2 ⟨ownedWorld, []⟩ "B" zeroRng ownedWorld_reject

/-! ### The FSM transition priority order (claim C4) -/

theorem diploCond_of_exists {c : Civilization} {nearby : List Civilization}
    (h : ∃ o ∈ nearby, c.relations o.name = none)
    (hs : c.state ≠ CivilizationState.diplomacy) :
    ¬ nearby.isEmpty ∧ c.state ≠ CivilizationState.diplomacy ∧
      nearby.any (fun o => (c.relations o.name).isNone) = true := by
  obtain ⟨o, ho, hrel⟩ := h
  refine ⟨?_, hs, ?_⟩
  · intro he
    rw [List.isEmpty_iff] at he
    subst he
    cases ho
  · rw [List.any_eq_true]
    refine ⟨o, ho, ?_⟩
    rw [hrel]
    rfl

theorem not_diploCond {c : Civilization} {nearby : List Civilization}
    (h : ¬ (c.state ≠ CivilizationState.diplomacy ∧
      ∃ o ∈ nearby, c.relations o.name = none)) :
    ¬ (¬ nearby.isEmpty ∧ c.state ≠ CivilizationState.diplomacy ∧
      nearby.any (fun o => (c.relations o.name).isNone) = true) := by
  rintro ⟨hne, hs, hany⟩
  apply h
  refine ⟨hs, ?_⟩
  rw [List.any_eq_true] at hany
  obtain ⟨o, ho, hN⟩ := hany
  exact ⟨o, ho, Option.isNone_iff_eq_none.mp hN⟩

/-- C4: for a live civilization, `update_state` assigns the new state by
the first matching rule, in this order: starving → Hunting; low food →
Gathering; an unmet nearby civilization while not already in Diplomacy →
Diplomacy; abundant food with a small territory → Expanding (always for
expansionist/aggressive personalities, and for the others exactly when the
tick's draw is below 0.3); otherwise Idle.  A dead civilization is left
completely unchanged. -/
theorem c4_update_state_priority (c : Civilization)
    (nearby : List Civilization) (g : Rng) :
    (c.is_alive = false → c.update_state nearby g = (c, g)) ∧
    (c.is_alive = true →
      (c.get_food_per_capita < 20 →
        c.update_state nearby g = ({ c with state := CivilizationState.hunting }, g)) ∧
      (¬ c.get_food_per_capita < 20 → c.get_food_per_capita < 50 →
        c.update_state nearby g = ({ c with state := CivilizationState.gathering }, g)) ∧
      (¬ c.get_food_per_capita < 20 → ¬ c.get_food_per_capita < 50 →
        (∃ o ∈ nearby, c.relations o.name = none) →
        c.state ≠ CivilizationState.diplomacy →
        c.update_state nearby g = ({ c with state := CivilizationState.diplomacy }, g)) ∧
      (¬ c.get_food_per_capita < 20 → ¬ c.get_food_per_capita < 50 →
        ¬ (c.state ≠ CivilizationState.diplomacy ∧ ∃ o ∈ nearby, c.relations o.name = none) →
        150 < c.get_food_per_capita → c.territory.length < 30 →
        ((c.personality = PersonalityTrait.expansionist ∨ c.personality = PersonalityTrait.aggressive →
            c.update_state nearby g = ({ c with state := CivilizationState.expanding }, g)) ∧
         (¬ (c.personality = PersonalityTrait.expansionist ∨ c.personality = PersonalityTrait.aggressive) →
            ((c.update_state nearby g).1.state = CivilizationState.expanding ↔ g.stream g.idx < 3 / 10) ∧
            (¬ g.stream g.idx < 3 / 10 →
              (c.update_state nearby g).1.state = CivilizationState.idle)))) ∧
      (¬ c.get_food_per_capita < 20 → ¬ c.get_food_per_capita < 50 →
        ¬ (c.state ≠ CivilizationState.diplomacy ∧ ∃ o ∈ nearby, c.relations o.name = none) →
        ¬ (150 < c.get_food_per_capita ∧ c.territory.length < 30) →
        c.update_state nearby g = ({ c with state := CivilizationState.idle }, g))) := by
  constructor
  · intro hdead
    unfold Civilization.update_state
    rw [if_pos]
    rw [hdead]
    intro h
    cases h
  · intro halive
    have hnotdead : ¬ ¬ c.is_alive = true := not_not_intro halive
    refine ⟨?_, ?_, ?_, ?_, ?_⟩
    · intro h1
      unfold Civilization.update_state
      dsimp only [Civilization.FOOD_STARVING, Civilization.FOOD_LOW, Civilization.FOOD_EXCESS]
      rw [if_neg hnotdead, if_pos h1]
    · intro h1 h2
      unfold Civilization.update_state
      dsimp only [Civilization.FOOD_STARVING, Civilization.FOOD_LOW, Civilization.FOOD_EXCESS]
      rw [if_neg hnotdead, if_neg h1, if_pos h2]
    · intro h1 h2 hex hst
      unfold Civilization.update_state
      dsimp only [Civilization.FOOD_STARVING, Civilization.FOOD_LOW, Civilization.FOOD_EXCESS]
      rw [if_neg hnotdead, if_neg h1, if_neg h2, if_pos (diploCond_of_exists hex hst)]
    · intro h1 h2 h3 h4 h5
      constructor
      · intro hpers
        unfold Civilization.update_state
        dsimp only [Civilization.FOOD_STARVING, Civilization.FOOD_LOW, Civilization.FOOD_EXCESS]
        rw [if_neg hnotdead, if_neg h1, if_neg h2, if_neg (not_diploCond h3),
          if_pos ⟨h4, h5⟩, if_pos hpers]
      · intro hpers
        unfold Civilization.update_state
        dsimp only [Civilization.FOOD_STARVING, Civilization.FOOD_LOW, Civilization.FOOD_EXCESS]
        rw [if_neg hnotdead, if_neg h1, if_neg h2, if_neg (not_diploCond h3),
          if_pos ⟨h4, h5⟩, if_neg hpers]
        dsimp only [Rng.next]
        constructor
        · by_cases hq : g.stream g.idx < 3 / 10
          · rw [if_pos hq]
            simp [hq]
          · rw [if_neg hq]
            simp [hq]
        · intro hq
          rw [if_neg hq]
    · intro h1 h2 h3 h4
      unfold Civilization.update_state
      dsimp only [Civilization.FOOD_STARVING, Civilization.FOOD_LOW, Civilization.FOOD_EXCESS]
      rw [if_neg hnotdead, if_neg h1, if_neg h2, if_neg (not_diploCond h3), if_neg h4]

theorem c4_witness :
    witnessCiv.is_alive = true ∧
    witnessCiv.get_food_per_capita < 20 ∧
    witnessCiv.update_state [] zeroRng
      = ({ witnessCiv with state := CivilizationState.hunting }, zeroRng) ∧
    ({ witnessCiv with is_alive := false }).update_state [] zeroRng
      = ({ witnessCiv with is_alive := false }, zeroRng) :=
  ⟨rfl, by norm_num [Civilization.get_food_per_capita, witnessCiv],
   ((c4_update_state_priority witnessCiv [] zeroRng).2 rfl).1
     (by norm_num [Civilization.get_food_per_capita, witnessCiv]),
   (c4_update_state_priority { witnessCiv with is_alive := false } [] zeroRng).1 rfl⟩

/-! ### Frame lemmas shared by the run-level invariants (claims C1, C3, C6) -/

theorem update_state_dead (c : Civilization) (nearby : List Civilization)
    (g : Rng) (h : c.is_alive = false) : c.update_state nearby g = (c, g) := by
  unfold Civilization.update_state
  rw [if_pos]
  simp [h]

theorem execute_action_dead (c : Civilization) (nearby : List Civilization)
    (w : World) (g : Rng) (h : c.is_alive = false) :
    c.execute_action nearby w g = (c, w, none, g) := by
  unfold Civilization.execute_action
  rw [if_pos]
  simp [h]

theorem popChanges_dead (c : Civilization) (g : Rng) (h : c.is_alive = false) :
    c.process_population_changes g = (c, g) := by
  unfold Civilization.process_population_changes
  rw [if_pos]
  simp [h]

/-- `update_state` only ever writes the `state` field. -/
theorem update_state_shape (c : Civilization) (nearby : List Civilization)
    (g : Rng) : ∃ st, (c.update_state nearby g).1 = { c with state := st } := by
  unfold Civilization.update_state
  dsimp only [Rng.next]
  split_ifs <;> exact ⟨_, rfl⟩

theorem relWriteTo_name (s : String) (us : String × ℤ) (o : Civilization) :
    (relWriteTo s us o).name = o.name := by
  unfold relWriteTo
  split <;> rfl

theorem relWriteTo_of_name_ne (s : String) (us : String × ℤ) (o : Civilization)
    (h : o.name ≠ us.1) : relWriteTo s us o = o := by
  unfold relWriteTo
  rw [if_neg h]

/-- `relWriteTo` only ever writes the `relations` field. -/
theorem relWriteTo_shape (s : String) (us : String × ℤ) (o : Civilization) :
    ∃ rel, relWriteTo s us o = { o with relations := rel } := by
  unfold relWriteTo
  split
  · exact ⟨_, rfl⟩
  · exact ⟨o.relations, rfl⟩

theorem applyRelWrite_names (s : String) (upd : Option (String × ℤ))
    (civs : List Civilization) :
    (applyRelWrite s upd civs).map Civilization.name = civs.map Civilization.name := by
  cases upd with
  | none => rfl
  | some us =>
    unfold applyRelWrite
    rw [List.map_map]
    apply List.map_congr_left
    intro o _
    exact relWriteTo_name s us o

/-- A nearby civilization is a living member of the scanned list. -/
theorem nearby_mem_alive {w : World} {civs : List Civilization}
    {c o : Civilization} (h : o ∈ nearbyCivilizations w civs c) :
    o ∈ civs ∧ o.is_alive = true := by
  unfold nearbyCivilizations at h
  have := List.mem_filter.mp h
  refine ⟨this.1, ?_⟩
  have hb := this.2
  unfold isNearbyTo at hb
  rw [Bool.and_eq_true, Bool.and_eq_true] at hb
  exact hb.1.2

/-- The relation write produced by `execute_action` targets the name of
some nearby civilization. -/
theorem execute_action_write_target (c : Civilization)
    (nearby : List Civilization) (w : World) (g : Rng) (us : String × ℤ)
    (h : (c.execute_action nearby w g).2.2.1 = some us) :
    ∃ o ∈ nearby, o.name = us.1 := by
  unfold Civilization.execute_action at h
  by_cases halive : c.is_alive = true
  · rw [if_neg (not_not_intro halive)] at h
    cases hst : c.state <;> rw [hst] at h <;> dsimp only at h
    · cases h
    · cases h
    · cases h
    · cases h
    · -- diplomacy
      unfold Civilization.action_diplomacy at h
      cases hf : nearby.find? (fun o => (c.relations o.name).isNone) with
      | none =>
        rw [hf] at h
        cases h
      | some other =>
        rw [hf] at h
        dsimp only at h
        cases Option.some.inj h
        exact ⟨other, List.mem_of_find?_eq_some hf, rfl⟩
    · cases h
    · cases h
  · rw [if_pos (by simpa using halive)] at h
    cases h

/-- Members of a name-nodup list with equal names are equal. -/
theorem eq_of_name_eq {civs : List Civilization}
    (hnd : (civs.map Civilization.name).Nodup) {a b : Civilization}
    (ha : a ∈ civs) (hb : b ∈ civs) (he : a.name = b.name) : a = b :=
  List.inj_on_of_nodup_map hnd ha hb he

theorem execute_action_name (c : Civilization) (nearby : List Civilization)
    (w : World) (g : Rng) : (c.execute_action nearby w g).1.name = c.name := by
  unfold Civilization.execute_action
  by_cases h : c.is_alive = true
  · rw [if_neg (not_not_intro h)]
    cases hst : c.state <;> dsimp only
    · rfl
    · rfl
    · rfl
    · unfold Civilization.action_expand
      cases hc : Civilization.findClaim w c.territory <;> rfl
    · unfold Civilization.action_diplomacy
      cases hf : nearby.find? (fun o => (c.relations o.name).isNone) <;> rfl
    · rfl
    · rfl
  · rw [if_pos (by simpa using h)]

theorem popChanges_name (c : Civilization) (g : Rng) :
    (c.process_population_changes g).1.name = c.name := by
  unfold Civilization.process_population_changes
  by_cases h : c.is_alive = true
  · rw [if_neg (not_not_intro h)]
    dsimp only [Rng.next]
    split_ifs <;> rfl
  · rw [if_pos (by simpa using h)]

/-- C6's collapse trigger: when the population after a tick's dynamics is
below the minimum, `process_population_changes` marks the civilization
collapsed with cause "population collapse" in the same call. -/
theorem popChanges_collapse (c : Civilization) (g : Rng)
    (halive : c.is_alive = true)
    (hlow : (c.process_population_changes g).1.population < 10) :
    (c.process_population_changes g).1.is_alive = false ∧
    (c.process_population_changes g).1.state = CivilizationState.collapsed ∧
    (c.process_population_changes g).1.death_cause = some "population collapse" := by
  unfold Civilization.process_population_changes at hlow ⊢
  rw [if_neg (not_not_intro halive)] at hlow ⊢
  dsimp only [Rng.next, Civilization.POPULATION_MIN, Civilization.MORALE_CRITICAL] at hlow ⊢
  split_ifs at hlow ⊢ <;> first
    | exact ⟨rfl, rfl, rfl⟩
    | (exfalso; dsimp only at *; omega)

theorem update_state_name (c : Civilization) (nearby : List Civilization)
    (g : Rng) : (c.update_state nearby g).1.name = c.name := by
  obtain ⟨st, h⟩ := update_state_shape c nearby g
  rw [h]

theorem applyRelWrite_mem_of_ne (s : String) (upd : Option (String × ℤ))
    (l : List Civilization) (c : Civilization) (hc : c ∈ l)
    (h : ∀ us, upd = some us → c.name ≠ us.1) : c ∈ applyRelWrite s upd l := by
  cases upd with
  | none => exact hc
  | some us =>
    have hm := List.mem_map_of_mem (relWriteTo s us) hc
    rwa [relWriteTo_of_name_ne s us c (h us rfl)] at hm

theorem civPhase_names : ∀ (pending done : List Civilization) (w : World) (g : Rng),
    ((civPhase w done pending g).2.1).map Civilization.name
      = (done ++ pending).map Civilization.name
  | [], done, w, g => by
    unfold civPhase
    simp
  | c :: rest, done, w, g => by
    unfold civPhase
    split
    · rw [civPhase_names rest (done ++ [c]) w g]
      simp
    · dsimp only
      rw [civPhase_names]
      simp [applyRelWrite_names, execute_action_name, update_state_name]
termination_by pending => pending.length
decreasing_by
  all_goals simp [applyRelWrite_length]

theorem civPhase_dead_mem : ∀ (pending done : List Civilization) (w : World) (g : Rng),
    ((done ++ pending).map Civilization.name).Nodup →
    ∀ c : Civilization, c.is_alive = false → c ∈ done ++ pending →
      c ∈ (civPhase w done pending g).2.1
  | [], done, w, g => by
    intro hnd c hdead hc
    unfold civPhase
    simpa using hc
  | c0 :: rest, done, w, g => by
    intro hnd c hdead hc
    unfold civPhase
    split
    · refine civPhase_dead_mem rest (done ++ [c0]) w g ?_ c hdead ?_
      · rw [show (done ++ [c0]) ++ rest = done ++ c0 :: rest by simp]
        exact hnd
      · rw [show (done ++ [c0]) ++ rest = done ++ c0 :: rest by simp]
        exact hc
    · rename_i halive
      have halive' : c0.is_alive = true := not_not.mp halive
      dsimp only
      have hwrite : ∀ us, (Civilization.execute_action
          (Civilization.update_state c0 (nearbyCivilizations w (done ++ c0 :: rest) c0) g).1
          (nearbyCivilizations w (done ++ c0 :: rest) c0) w
          (Civilization.update_state c0 (nearbyCivilizations w (done ++ c0 :: rest) c0) g).2).2.2.1
          = some us → c.name ≠ us.1 := by
        intro us hus hname
        obtain ⟨o, ho, honame⟩ := execute_action_write_target _ _ _ _ us hus
        obtain ⟨homem, hoalive⟩ := nearby_mem_alive ho
        have : c = o := eq_of_name_eq hnd hc homem (by rw [hname, honame])
        rw [this] at hdead
        rw [hoalive] at hdead
        cases hdead
      refine civPhase_dead_mem _ _ _ _ ?_ c hdead ?_
      · rw [show ∀ l1 l2 : List Civilization, ((l1 ++ [(Civilization.execute_action (Civilization.update_state c0 (nearbyCivilizations w (done ++ c0 :: rest) c0) g).1 (nearbyCivilizations w (done ++ c0 :: rest) c0) w (Civilization.update_state c0 (nearbyCivilizations w (done ++ c0 :: rest) c0) g).2).1]) ++ l2) = l1 ++ [(Civilization.execute_action (Civilization.update_state c0 (nearbyCivilizations w (done ++ c0 :: rest) c0) g).1 (nearbyCivilizations w (done ++ c0 :: rest) c0) w (Civilization.update_state c0 (nearbyCivilizations w (done ++ c0 :: rest) c0) g).2).1] ++ l2 from fun l1 l2 => by simp]
        rw [List.map_append, List.map_append, applyRelWrite_names, applyRelWrite_names]
        have : ([(Civilization.execute_action (Civilization.update_state c0 (nearbyCivilizations w (done ++ c0 :: rest) c0) g).1 (nearbyCivilizations w (done ++ c0 :: rest) c0) w (Civilization.update_state c0 (nearbyCivilizations w (done ++ c0 :: rest) c0) g).2).1].map Civilization.name) = [c0.name] := by
          simp [execute_action_name, update_state_name]
        rw [this]
        simpa using hnd
      · rcases List.mem_append.mp hc with hcd | hcr
        · refine List.mem_append.mpr (Or.inl (List.mem_append.mpr (Or.inl ?_)))
          exact applyRelWrite_mem_of_ne _ _ _ c hcd hwrite
        · rcases List.mem_cons.mp hcr with rfl | hcr2
          · rw [halive'] at hdead
            cases hdead
          · refine List.mem_append.mpr (Or.inr ?_)
            exact applyRelWrite_mem_of_ne _ _ _ c hcr2 hwrite
termination_by pending => pending.length
decreasing_by
  all_goals simp [applyRelWrite_length]

theorem getD_mem {α : Type} (l : List α) (i : ℕ) (d : α) (hd : d ∈ l) :
    l.getD i d ∈ l := by
  rw [List.getD_eq_getElem?_getD]
  cases h : l[i]? with
  | none => simpa using hd
  | some a => simpa using List.getElem?_mem h

theorem updateByName_mem_of_ne (civs : List Civilization) (nm : String)
    (f : Civilization → Civilization) (c : Civilization) (hc : c ∈ civs)
    (h : c.name ≠ nm) : c ∈ updateByName civs nm f := by
  unfold updateByName
  have hm := List.mem_map_of_mem (fun o => if o.name = nm then f o else o) hc
  simp only at hm
  rw [if_neg h] at hm
  exact hm

theorem updateByName_names (civs : List Civilization) (nm : String)
    (f : Civilization → Civilization) (hf : ∀ o, (f o).name = o.name) :
    (updateByName civs nm f).map Civilization.name = civs.map Civilization.name := by
  unfold updateByName
  rw [List.map_map]
  apply List.map_congr_left
  intro o _
  by_cases h : o.name = nm <;> simp [h, hf]

/-- The shape shared by all civilization-list transformations performed by
one random event: either the list is untouched, or one living member (by
name) is rewritten by a name-preserving mutation. -/
def civsStep (civs civs2 : List Civilization) : Prop :=
  civs2 = civs ∨
    ∃ nm f, (∃ o ∈ civs, o.name = nm ∧ o.is_alive = true) ∧
      (∀ o : Civilization, (f o).name = o.name) ∧ civs2 = updateByName civs nm f

theorem civsStep_names {civs civs2 : List Civilization} (h : civsStep civs civs2) :
    civs2.map Civilization.name = civs.map Civilization.name := by
  rcases h with rfl | ⟨nm, f, _, hf, rfl⟩
  · rfl
  · exact updateByName_names civs nm f hf

theorem civsStep_dead_mem {civs civs2 : List Civilization} (h : civsStep civs civs2)
    (hnd : (civs.map Civilization.name).Nodup) {c : Civilization}
    (hdead : c.is_alive = false) (hc : c ∈ civs) : c ∈ civs2 := by
  rcases h with rfl | ⟨nm, f, ⟨o, ho, honame, hoalive⟩, hf, rfl⟩
  · exact hc
  · refine updateByName_mem_of_ne civs nm f c hc ?_
    intro he
    have : c = o := eq_of_name_eq hnd hc ho (by rw [he, honame])
    rw [this, hoalive] at hdead
    cases hdead

theorem plagueExecute_civsStep (w : World) (civs : List Civilization) (g : Rng) :
    civsStep civs (plagueExecute w civs g).2.1 := by
  unfold plagueExecute
  cases hl : civs.filter (fun c => c.is_alive) with
  | nil => exact Or.inl rfl
  | cons a rest =>
    dsimp only [Rng.next]
    refine Or.inr ⟨_, _, ?_, ?_, rfl⟩
    · have hmem : (a :: rest).getD (pickIdx (g.stream g.idx) (a :: rest).length) a ∈ a :: rest :=
        getD_mem _ _ _ (List.mem_cons_self a rest)
      have hmem2 : (a :: rest).getD (pickIdx (g.stream g.idx) (a :: rest).length) a
          ∈ civs.filter (fun c => c.is_alive) := by
        rw [hl]
        exact hmem
      have := List.mem_filter.mp hmem2
      exact ⟨_, this.1, rfl, this.2⟩
    · intro o
      rfl

theorem techExecute_civsStep (w : World) (civs : List Civilization) (g : Rng) :
    civsStep civs (techExecute w civs g).2.1 := by
  unfold techExecute
  cases hl : civs.filter (fun c => c.is_alive) with
  | nil => exact Or.inl rfl
  | cons a rest =>
    dsimp only [Rng.next]
    refine Or.inr ⟨_, _, ?_, ?_, rfl⟩
    · have hmem : (a :: rest).getD (pickIdx (g.stream g.idx) (a :: rest).length) a ∈ a :: rest :=
        getD_mem _ _ _ (List.mem_cons_self a rest)
      have hmem2 : (a :: rest).getD (pickIdx (g.stream g.idx) (a :: rest).length) a
          ∈ civs.filter (fun c => c.is_alive) := by
        rw [hl]
        exact hmem
      have := List.mem_filter.mp hmem2
      exact ⟨_, this.1, rfl, this.2⟩
    · intro o
      rfl

theorem moraleCrisisExecute_civsStep (w : World) (civs : List Civilization) (g : Rng) :
    civsStep civs (moraleCrisisExecute w civs g).2.1 := by
  unfold moraleCrisisExecute
  cases hl : civs.filter (fun c => c.is_alive) with
  | nil => exact Or.inl rfl
  | cons a rest =>
    dsimp only [Rng.next]
    refine Or.inr ⟨_, _, ?_, ?_, rfl⟩
    · have hmem : (a :: rest).getD (pickIdx (g.stream g.idx) (a :: rest).length) a ∈ a :: rest :=
        getD_mem _ _ _ (List.mem_cons_self a rest)
      have hmem2 : (a :: rest).getD (pickIdx (g.stream g.idx) (a :: rest).length) a
          ∈ civs.filter (fun c => c.is_alive) := by
        rw [hl]
        exact hmem
      have := List.mem_filter.mp hmem2
      exact ⟨_, this.1, rfl, this.2⟩
    · intro o
      rfl

/-- Every event stage relates input and output civilization lists by
`civsStep`. -/
theorem eventStage_civsStep (prob : ℚ)
    (exec : World → List Civilization → Rng → World × List Civilization × Rng)
    (hexec : ∀ w c g, civsStep c (exec w c g).2.1)
    (wcg : World × List Civilization × Rng) :
    civsStep wcg.2.1 (eventStage prob exec wcg).2.1 := by
  unfold eventStage
  split
  · exact hexec _ _ _
  · exact Or.inl rfl

theorem droughtExecute_civsStep (w : World) (civs : List Civilization) (g : Rng) :
    civsStep civs (droughtExecute w civs g).2.1 :=
  Or.inl rfl

theorem bountifulExecute_civsStep (w : World) (civs : List Civilization) (g : Rng) :
    civsStep civs (bountifulExecute w civs g).2.1 :=
  Or.inl rfl

/-- The whole event phase preserves the name list and keeps every dead
civilization record untouched (given unique names). -/
theorem processEvents_dead (w : World) (civs : List Civilization) (g : Rng)
    (hnd : (civs.map Civilization.name).Nodup) :
    (processEvents w civs g).2.1.map Civilization.name = civs.map Civilization.name ∧
    ∀ c : Civilization, c.is_alive = false → c ∈ civs →
      c ∈ (processEvents w civs g).2.1 := by
  unfold processEvents
  have h1 := eventStage_civsStep (1 / 1000) droughtExecute droughtExecute_civsStep (w, civs, g)
  have h2 := eventStage_civsStep (2 / 1000) bountifulExecute bountifulExecute_civsStep
    (eventStage (1 / 1000) droughtExecute (w, civs, g))
  have h3 := eventStage_civsStep (5 / 10000) plagueExecute plagueExecute_civsStep
    (eventStage (2 / 1000) bountifulExecute (eventStage (1 / 1000) droughtExecute (w, civs, g)))
  have h4 := eventStage_civsStep (1 / 1000) techExecute techExecute_civsStep
    (eventStage (5 / 10000) plagueExecute (eventStage (2 / 1000) bountifulExecute
      (eventStage (1 / 1000) droughtExecute (w, civs, g))))
  have h5 := eventStage_civsStep (3 / 10000) moraleCrisisExecute moraleCrisisExecute_civsStep
    (eventStage (1 / 1000) techExecute (eventStage (5 / 10000) plagueExecute
      (eventStage (2 / 1000) bountifulExecute (eventStage (1 / 1000) droughtExecute (w, civs, g)))))
  have n1 := civsStep_names h1
  have n2 := civsStep_names h2
  have n3 := civsStep_names h3
  have n4 := civsStep_names h4
  have n5 := civsStep_names h5
  constructor
  · rw [n5, n4, n3, n2, n1]
  · intro c hdead hc
    refine civsStep_dead_mem h5 ?_ hdead (civsStep_dead_mem h4 ?_ hdead
      (civsStep_dead_mem h3 ?_ hdead (civsStep_dead_mem h2 ?_ hdead
        (civsStep_dead_mem h1 hnd hdead hc))))
    · rw [n4, n3, n2, n1]
      exact hnd
    · rw [n3, n2, n1]
      exact hnd
    · rw [n2, n1]
      exact hnd
    · rw [n1]
      exact hnd

theorem popPhase_names : ∀ (civs : List Civilization) (g : Rng),
    (popPhase civs g).1.map Civilization.name = civs.map Civilization.name
  | [], _ => rfl
  | c :: rest, g => by
    unfold popPhase
    dsimp only
    rw [List.map_cons, List.map_cons, popChanges_name, popPhase_names rest _]

theorem popPhase_dead_mem : ∀ (civs : List Civilization) (g : Rng) (c : Civilization),
    c ∈ civs → c.is_alive = false → c ∈ (popPhase civs g).1
  | [], _, c, hc, _ => absurd hc (List.not_mem_nil c)
  | c0 :: rest, g, c, hc, hdead => by
    unfold popPhase
    dsimp only
    rcases List.mem_cons.mp hc with rfl | h2
    · rw [popChanges_dead c _ hdead]
      exact List.mem_cons_self _ _
    · exact List.mem_cons_of_mem _ (popPhase_dead_mem rest _ c h2 hdead)

/-- A whole tick keeps the name roster unchanged and passes every dead
civilization record through completely untouched. -/
theorem tick_dead_frame (s : Simulation) (g : Rng)
    (hnd : (s.civilizations.map Civilization.name).Nodup) :
    (s.tick g).1.civilizations.map Civilization.name
      = s.civilizations.map Civilization.name ∧
    ∀ c : Civilization, c.is_alive = false → c ∈ s.civilizations →
      c ∈ (s.tick g).1.civilizations := by
  unfold Simulation.tick
  dsimp only
  set w2 := s.world.update_climate.update_resources with hw2
  set r := civPhase w2 [] s.civilizations g with hr
  set e := processEvents r.1 r.2.1 r.2.2 with he
  have hn1 : r.2.1.map Civilization.name = s.civilizations.map Civilization.name := by
    rw [hr, civPhase_names]
    simp
  have hnd1 : (r.2.1.map Civilization.name).Nodup := by
    rw [hn1]
    exact hnd
  obtain ⟨hn2, hm2⟩ := processEvents_dead r.1 r.2.1 r.2.2 hnd1
  constructor
  · rw [popPhase_names, he, hn2, hn1]
  · intro c hdead hc
    have m1 : c ∈ r.2.1 := by
      rw [hr]
      exact civPhase_dead_mem s.civilizations [] w2 g (by simpa using hnd) c hdead
        (by simpa using hc)
    have m2 : c ∈ e.2.1 := by
      rw [he]
      exact hm2 c hdead m1
    exact popPhase_dead_mem _ _ c m2 hdead

/-- C6: a civilization whose population ends a tick's population dynamics
below 10 is marked dead, `Collapsed`, with cause "population collapse", in
that same call; a dead civilization is returned unchanged by
`update_state`, `execute_action` and `process_population_changes`; and a
whole simulation tick (actions, events, population changes) passes a dead
civilization's record through completely untouched — collapse is never
reversed and no field of a dead civilization ever changes. -/
theorem c6_collapse_is_permanent :
    (∀ (c : Civilization) (g : Rng), c.is_alive = true →
      (c.process_population_changes g).1.population < 10 →
      (c.process_population_changes g).1.is_alive = false ∧
      (c.process_population_changes g).1.state = CivilizationState.collapsed ∧
      (c.process_population_changes g).1.death_cause = some "population collapse") ∧
    (∀ (c : Civilization) (nearby : List Civilization) (g : Rng),
      c.is_alive = false → c.update_state nearby g = (c, g)) ∧
    (∀ (c : Civilization) (nearby : List Civilization) (w : World) (g : Rng),
      c.is_alive = false → c.execute_action nearby w g = (c, w, none, g)) ∧
    (∀ (c : Civilization) (g : Rng), c.is_alive = false →
      c.process_population_changes g = (c, g)) ∧
    (∀ (s : Simulation) (g : Rng),
      (s.civilizations.map Civilization.name).Nodup →
      (s.tick g).1.civilizations.map Civilization.name
          = s.civilizations.map Civilization.name ∧
      ∀ c : Civilization, c.is_alive = false → c ∈ s.civilizations →
        c ∈ (s.tick g).1.civilizations) :=
  ⟨fun c g halive hlow => popChanges_collapse c g halive hlow,
   update_state_dead,
   execute_action_dead,
   popChanges_dead,
   fun s g hnd => tick_dead_frame s g hnd⟩

/-- A civilization whose population dynamics collapse it this tick. -/
def dyingCiv : Civilization :=
  { witnessCiv with population := 0, food := 100 }

/-- A dead civilization record. -/
def deadCiv : Civilization :=
  { witnessCiv with is_alive := false, state := CivilizationState.collapsed, death_cause := some "population collapse" }

theorem c6_witness :
    dyingCiv.is_alive = true ∧
    (dyingCiv.process_population_changes zeroRng).1.population < 10 ∧
    (dyingCiv.process_population_changes zeroRng).1.is_alive = false ∧
    (dyingCiv.process_population_changes zeroRng).1.state = CivilizationState.collapsed ∧
    deadCiv.execute_action [] smallWorld zeroRng = (deadCiv, smallWorld, none, zeroRng) ∧
    deadCiv ∈ (Simulation.tick ⟨smallWorld, [deadCiv]⟩ zeroRng).1.civilizations := by
  have hpop : (dyingCiv.process_population_changes zeroRng).1.population < 10 := by
    unfold Civilization.process_population_changes
    norm_num [dyingCiv, witnessCiv, Civilization.get_food_per_capita, pyTrunc, Rng.next,
      zeroRng, Civilization.POPULATION_MIN, Civilization.MORALE_CRITICAL]
  have h := c6_collapse_is_permanent
  refine ⟨rfl, hpop, (h.1 dyingCiv zeroRng rfl hpop).1, (h.1 dyingCiv zeroRng rfl hpop).2.1,
    h.2.2.1 deadCiv [] smallWorld zeroRng rfl, ?_⟩
  exact (h.2.2.2.2 ⟨smallWorld, [deadCiv]⟩ zeroRng (by simp)).2 deadCiv rfl
    (List.mem_singleton.mpr rfl)

/-! ### The food stockpile is never negative (claim C3) -/

/-- `update_state` can only produce `Expanding` from the
abundant-food rule, so the food-per-capita bound holds. -/
theorem update_state_expanding (c : Civilization) (nearby : List Civilization)
    (g : Rng) (halive : c.is_alive = true)
    (h : (c.update_state nearby g).1.state = CivilizationState.expanding) :
    150 < c.get_food_per_capita := by
  unfold Civilization.update_state at h
  rw [if_neg (not_not_intro halive)] at h
  dsimp only [Rng.next, Civilization.FOOD_STARVING, Civilization.FOOD_LOW,
    Civilization.FOOD_EXCESS] at h
  split_ifs at h with h1 h2 h3 h4 h5 h6
  · exact h4.1
  · exact h4.1

/-- Abundant food per capita forces an absolute food stock above 150. -/
theorem food_of_fpc_gt (c : Civilization) (hf : 0 ≤ c.food)
    (h : 150 < c.get_food_per_capita) : 151 ≤ c.food := by
  unfold Civilization.get_food_per_capita at h
  split_ifs at h with hp
  · norm_num at h
  · by_cases hpos : 0 < c.population
    · have hpos' : (0 : ℚ) < (c.population : ℚ) := by exact_mod_cast hpos
      have hmul : (150 : ℚ) * (c.population : ℚ) < (c.food : ℚ) :=
        (lt_div_iff₀ hpos').mp h
      have hz : 150 * c.population < c.food := by exact_mod_cast hmul
      omega
    · have hneg : (c.population : ℚ) ≤ 0 := by
        have : c.population ≤ 0 := le_of_not_lt hpos
        exact_mod_cast this
      have hf' : (0 : ℚ) ≤ (c.food : ℚ) := by exact_mod_cast hf
      have : (c.food : ℚ) / (c.population : ℚ) ≤ 0 :=
        div_nonpos_iff.mpr (Or.inl ⟨hf', hneg⟩)
      linarith

theorem action_idle_food (c : Civilization) : 0 ≤ c.action_idle.food :=
  le_max_left 0 _

theorem action_hunt_food (c : Civilization) (w : World) :
    0 ≤ (c.action_hunt w).1.food :=
  le_max_left 0 _

theorem action_gather_food (c : Civilization) (w : World) :
    0 ≤ (c.action_gather w).1.food :=
  le_max_left 0 _

theorem action_expand_food (c : Civilization) (w : World) :
    (c.action_expand w).1.food = c.food - 10 ∨ (c.action_expand w).1.food = c.food := by
  unfold Civilization.action_expand
  cases h : Civilization.findClaim w c.territory
  · exact Or.inr rfl
  · exact Or.inl rfl

theorem action_diplomacy_food (c : Civilization) (nearby : List Civilization)
    (g : Rng) : (c.action_diplomacy nearby g).1.food = c.food := by
  unfold Civilization.action_diplomacy
  cases h : nearby.find? (fun o => (c.relations o.name).isNone) <;> rfl

/-- One civilization step of the tick (FSM transition, then action) keeps
the food stockpile nonnegative. -/
theorem civStep_food (c : Civilization) (nearby : List Civilization) (w : World)
    (g : Rng) (hf : 0 ≤ c.food) :
    0 ≤ (Civilization.execute_action (c.update_state nearby g).1 nearby w
      (c.update_state nearby g).2).1.food := by
  by_cases halive : c.is_alive = true
  · obtain ⟨st, hshape⟩ := update_state_shape c nearby g
    have hal1 : (c.update_state nearby g).1.is_alive = true := by
      rw [hshape]
      exact halive
    have hfood1 : (c.update_state nearby g).1.food = c.food := by
      rw [hshape]
    unfold Civilization.execute_action
    rw [if_neg (not_not_intro hal1)]
    cases hst : (c.update_state nearby g).1.state <;> dsimp only
    · exact action_idle_food _
    · exact action_hunt_food _ _
    · exact action_gather_food _ _
    · -- expanding
      have hfpc : 150 < c.get_food_per_capita :=
        update_state_expanding c nearby g halive hst
      have h151 : 151 ≤ c.food := food_of_fpc_gt c hf hfpc
      rcases action_expand_food (c.update_state nearby g).1 w with he | he
      · rw [he, hfood1]
        omega
      · rw [he, hfood1]
        omega
    · rw [action_diplomacy_food, hfood1]
      exact hf
    · show 0 ≤ ((c.update_state nearby g).1.action_defend).food
      unfold Civilization.action_defend
      show 0 ≤ (c.update_state nearby g).1.food
      rw [hfood1]
      exact hf
    · exact action_idle_food _
  · have hdead : c.is_alive = false := by
      cases hb : c.is_alive
      · rfl
      · exact absurd hb halive
    rw [update_state_dead c nearby g hdead, execute_action_dead c nearby w g hdead]
    exact hf

theorem relWriteTo_food (s : String) (us : String × ℤ) (o : Civilization) :
    (relWriteTo s us o).food = o.food := by
  unfold relWriteTo
  split <;> rfl

theorem applyRelWrite_food (s : String) (upd : Option (String × ℤ))
    (l : List Civilization) (h : ∀ c ∈ l, 0 ≤ c.food) :
    ∀ c ∈ applyRelWrite s upd l, 0 ≤ c.food := by
  cases upd with
  | none => exact h
  | some us =>
    intro c' hc'
    obtain ⟨o, ho, rfl⟩ := List.mem_map.mp hc'
    rw [relWriteTo_food]
    exact h o ho

theorem civPhase_food : ∀ (pending done : List Civilization) (w : World) (g : Rng),
    (∀ c ∈ done ++ pending, 0 ≤ c.food) →
    ∀ c ∈ (civPhase w done pending g).2.1, 0 ≤ c.food
  | [], done, w, g => by
    intro h c hc
    unfold civPhase at hc
    exact h c (by simpa using hc)
  | c0 :: rest, done, w, g => by
    intro h c hc
    unfold civPhase at hc
    split at hc
    · refine civPhase_food rest (done ++ [c0]) w g ?_ c hc
      intro d hd
      refine h d ?_
      rw [show (done ++ [c0]) ++ rest = done ++ c0 :: rest by simp] at hd
      exact hd
    · dsimp only at hc
      refine civPhase_food _ _ _ _ ?_ c hc
      intro d hd
      rcases List.mem_append.mp hd with hd1 | hd2
      · rcases List.mem_append.mp hd1 with hd3 | hd4
        · refine applyRelWrite_food _ _ _ ?_ d hd3
          intro x hx
          exact h x (List.mem_append.mpr (Or.inl hx))
        · rw [List.mem_singleton.mp hd4]
          exact civStep_food c0 _ w g (h c0 (by simp))
      · refine applyRelWrite_food _ _ _ ?_ d hd2
        intro x hx
        exact h x (by simp [hx])
termination_by pending => pending.length
decreasing_by
  all_goals simp [applyRelWrite_length]

theorem updateByName_food (civs : List Civilization) (nm : String)
    (f : Civilization → Civilization) (hf : ∀ o, (f o).food = o.food)
    (h : ∀ c ∈ civs, 0 ≤ c.food) : ∀ c ∈ updateByName civs nm f, 0 ≤ c.food := by
  intro c' hc'
  obtain ⟨o, ho, rfl⟩ := List.mem_map.mp hc'
  by_cases hn : o.name = nm
  · rw [if_pos hn, hf]
    exact h o ho
  · rw [if_neg hn]
    exact h o ho

theorem plagueExecute_food (w : World) (civs : List Civilization) (g : Rng)
    (h : ∀ c ∈ civs, 0 ≤ c.food) : ∀ c ∈ (plagueExecute w civs g).2.1, 0 ≤ c.food := by
  unfold plagueExecute
  cases hl : civs.filter (fun c => c.is_alive) with
  | nil => exact h
  | cons a rest =>
    dsimp only [Rng.next]
    exact updateByName_food civs _ _ (fun o => rfl) h

theorem techExecute_food (w : World) (civs : List Civilization) (g : Rng)
    (h : ∀ c ∈ civs, 0 ≤ c.food) : ∀ c ∈ (techExecute w civs g).2.1, 0 ≤ c.food := by
  unfold techExecute
  cases hl : civs.filter (fun c => c.is_alive) with
  | nil => exact h
  | cons a rest =>
    dsimp only [Rng.next]
    exact updateByName_food civs _ _ (fun o => rfl) h

theorem moraleCrisisExecute_food (w : World) (civs : List Civilization) (g : Rng)
    (h : ∀ c ∈ civs, 0 ≤ c.food) : ∀ c ∈ (moraleCrisisExecute w civs g).2.1, 0 ≤ c.food := by
  unfold moraleCrisisExecute
  cases hl : civs.filter (fun c => c.is_alive) with
  | nil => exact h
  | cons a rest =>
    dsimp only [Rng.next]
    exact updateByName_food civs _ _ (fun o => rfl) h

theorem eventStage_food (prob : ℚ)
    (exec : World → List Civilization → Rng → World × List Civilization × Rng)
    (hexec : ∀ w c g, (∀ x ∈ c, 0 ≤ Civilization.food x) → ∀ x ∈ (exec w c g).2.1, 0 ≤ x.food)
    (wcg : World × List Civilization × Rng) (h : ∀ c ∈ wcg.2.1, 0 ≤ c.food) :
    ∀ c ∈ (eventStage prob exec wcg).2.1, 0 ≤ c.food := by
  unfold eventStage
  split
  · exact hexec _ _ _ h
  · exact h

theorem processEvents_food (w : World) (civs : List Civilization) (g : Rng)
    (h : ∀ c ∈ civs, 0 ≤ c.food) : ∀ c ∈ (processEvents w civs g).2.1, 0 ≤ c.food := by
  unfold processEvents
  refine eventStage_food _ _ moraleCrisisExecute_food _ ?_
  refine eventStage_food _ _ techExecute_food _ ?_
  refine eventStage_food _ _ plagueExecute_food _ ?_
  refine eventStage_food _ _ (fun w c g hh => hh) _ ?_
  exact eventStage_food _ _ (fun w c g hh => hh) _ h

theorem popChanges_food (c : Civilization) (g : Rng) :
    (c.process_population_changes g).1.food = c.food := by
  unfold Civilization.process_population_changes
  by_cases h : c.is_alive = true
  · rw [if_neg (not_not_intro h)]
    dsimp only [Rng.next]
    split_ifs <;> rfl
  · rw [if_pos (by simpa using h)]

theorem popPhase_food : ∀ (civs : List Civilization) (g : Rng),
    (∀ c ∈ civs, 0 ≤ c.food) → ∀ c ∈ (popPhase civs g).1, 0 ≤ c.food
  | [], _, _ => by
    intro c hc
    cases hc
  | c0 :: rest, g, h => by
    intro c hc
    unfold popPhase at hc
    dsimp only at hc
    rcases List.mem_cons.mp hc with rfl | h2
    · rw [popChanges_food]
      exact h c0 (List.mem_cons_self _ _)
    · exact popPhase_food rest _ (fun d hd => h d (List.mem_cons_of_mem _ hd)) c h2

/-- C3: the food stockpile is never negative.  A full tick maps a state in
which every civilization has nonnegative food to another such state; the
mechanism for the one unclamped deduction is exactly the claimed one:
`update_state` only emits `Expanding` under food-per-capita > 150 (so the
stock exceeds 150), and the expansion deduction of 10 leaves at least 141. -/
theorem c3_food_never_negative :
    (∀ (s : Simulation) (g : Rng), (∀ c ∈ s.civilizations, 0 ≤ c.food) →
      ∀ c ∈ (s.tick g).1.civilizations, 0 ≤ c.food) ∧
    (∀ (c : Civilization) (nearby : List Civilization) (g : Rng),
      c.is_alive = true →
      (c.update_state nearby g).1.state = CivilizationState.expanding →
      150 < c.get_food_per_capita) ∧
    (∀ (c : Civilization) (w : World), 0 ≤ c.food → 150 < c.get_food_per_capita →
      141 ≤ (c.action_expand w).1.food ∨ (c.action_expand w).1.food = c.food) := by
  refine ⟨?_, update_state_expanding, ?_⟩
  · intro s g h c hc
    unfold Simulation.tick at hc
    dsimp only at hc
    refine popPhase_food _ _ ?_ c hc
    refine processEvents_food _ _ _ ?_
    refine civPhase_food s.civilizations [] _ g ?_
    simpa using h
  · intro c w hf hfpc
    have h151 := food_of_fpc_gt c hf hfpc
    rcases action_expand_food c w with he | he
    · left
      omega
    · right
      exact he

/-- A civilization rich enough that `update_state` sends it expanding. -/
def richCiv : Civilization :=
  { witnessCiv with food := 8000, personality := PersonalityTrait.expansionist }

theorem c3_witness :
    richCiv.is_alive = true ∧
    (richCiv.update_state [] zeroRng).1.state = CivilizationState.expanding ∧
    150 < richCiv.get_food_per_capita ∧
    (∀ c ∈ [witnessCiv], 0 ≤ c.food) ∧
    (∀ c ∈ ((Simulation.tick ⟨smallWorld, [witnessCiv]⟩ zeroRng).1.civilizations), 0 ≤ c.food) ∧
    (141 ≤ (richCiv.action_expand smallWorld).1.food ∨
      (richCiv.action_expand smallWorld).1.food = richCiv.food) := by
  have hst : (richCiv.update_state [] zeroRng).1.state = CivilizationState.expanding := by
    unfold Civilization.update_state
    norm_num [richCiv, witnessCiv, Civilization.get_food_per_capita,
      Civilization.FOOD_STARVING, Civilization.FOOD_LOW, Civilization.FOOD_EXCESS]
  have hfed : ∀ c ∈ [witnessCiv], 0 ≤ c.food := by decide
  refine ⟨rfl, hst, ?_, hfed, ?_, ?_⟩
  · exact c3_food_never_negative.2.1 richCiv [] zeroRng rfl hst
  · exact c3_food_never_negative.1 ⟨smallWorld, [witnessCiv]⟩ zeroRng hfed
  · exact c3_food_never_negative.2.2 richCiv smallWorld (by decide)
      (c3_food_never_negative.2.1 richCiv [] zeroRng rfl hst)

/-! ### Determinism and delay-independence (claim C9) -/

/-- The per-civilization statistics named by the determinism property. -/
def civStats (c : Civilization) : String × ℤ × ℤ × ℤ × ℕ :=
  (c.name, c.population, c.food, c.morale, c.territory.length)

/-- C9: the run loop is a function of the initial state, the random source
and the tick count alone.  The optional inter-tick delay is only slept
away: for every delay choice the resulting simulation state — hence every
civilization's final population, food, morale and territory size — is
identical, and two runs with equal world, civilizations, random source and
tick count agree exactly. -/
theorem c9_run_deterministic_delay_irrelevant :
    (∀ (s : Simulation) (g : Rng) (days : ℕ) (d1 d2 : ℚ),
      (Simulation.runLoop s g days d1).1 = (Simulation.runLoop s g days d2).1) ∧
    (∀ (s : Simulation) (g : Rng) (days : ℕ) (d1 d2 : ℚ),
      ((Simulation.runLoop s g days d1).1.1.civilizations).map civStats
        = ((Simulation.runLoop s g days d2).1.1.civilizations).map civStats) ∧
    (∀ (s1 s2 : Simulation) (g1 g2 : Rng) (days1 days2 : ℕ) (d1 d2 : ℚ),
      s1 = s2 → g1 = g2 → days1 = days2 →
      ((Simulation.runLoop s1 g1 days1 d1).1.1.civilizations).map civStats
        = ((Simulation.runLoop s2 g2 days2 d2).1.1.civilizations).map civStats) := by
  have key : ∀ (days : ℕ) (s : Simulation) (g : Rng) (d1 d2 : ℚ),
      (Simulation.runLoop s g days d1).1 = (Simulation.runLoop s g days d2).1 := by
    intro days
    induction days with
    | zero =>
      intro s g d1 d2
      rfl
    | succ n ih =>
      intro s g d1 d2
      unfold Simulation.runLoop
      dsimp only
      split
      · rfl
      · exact ih _ _ d1 d2
  refine ⟨fun s g days d1 d2 => key days s g d1 d2, ?_, ?_⟩
  · intro s g days d1 d2
    rw [key days s g d1 d2]
  · intro s1 s2 g1 g2 days1 days2 d1 d2 hs hg hd
    subst hs
    subst hg
    subst hd
    rw [key days1 s1 g1 d1 d2]

theorem c9_witness :
    (⟨smallWorld, [witnessCiv]⟩ : Simulation) = ⟨smallWorld, [witnessCiv]⟩ ∧
    ((Simulation.runLoop ⟨smallWorld, [witnessCiv]⟩ zeroRng 2 0).1.1.civilizations).map civStats
      = ((Simulation.runLoop ⟨smallWorld, [witnessCiv]⟩ zeroRng 2 (1 / 2)).1.1.civilizations).map civStats :=
  ⟨rfl, c9_run_deterministic_delay_irrelevant.2.2 ⟨smallWorld, [witnessCiv]⟩
    ⟨smallWorld, [witnessCiv]⟩ zeroRng zeroRng 2 2 0 (1 / 2) rfl rfl rfl⟩

/-! ### Territory/ownership synchronization (claim C1) -/

/-- Every in-grid cell records its own grid coordinates (established at
world generation, where `Cell(x, y)` stores them, and never mutated). -/
def World.coordsOK (w : World) : Prop :=
  ∀ p, w.inBounds p → ((w.grid p).x, (w.grid p).y) = p

/-- All of a civilization's territory coordinates denote in-grid cells
owned by it. -/
def territoryOK (w : World) (c : Civilization) : Prop :=
  ∀ p ∈ c.territory, w.inBounds p ∧ (w.grid p).owner = some c.name

/-- The territory/ownership run invariant. -/
def TerrInv (w : World) (civs : List Civilization) : Prop :=
  w.coordsOK ∧ (civs.map Civilization.name).Nodup ∧
    ∀ c ∈ civs, territoryOK w c ∧ c.territory.Nodup

/-- A world transformation that can touch neither ownership, coordinates,
nor the grid dimensions (food/temperature updates). -/
def gridFrame (w w2 : World) : Prop :=
  w2.width = w.width ∧ w2.height = w.height ∧
    ∀ p, (w2.grid p).owner = (w.grid p).owner ∧
      (w2.grid p).x = (w.grid p).x ∧ (w2.grid p).y = (w.grid p).y

theorem gridFrame_refl (w : World) : gridFrame w w :=
  ⟨rfl, rfl, fun _ => ⟨rfl, rfl, rfl⟩⟩

theorem gridFrame_trans {w1 w2 w3 : World} (h1 : gridFrame w1 w2)
    (h2 : gridFrame w2 w3) : gridFrame w1 w3 := by
  obtain ⟨ha1, hb1, hc1⟩ := h1
  obtain ⟨ha2, hb2, hc2⟩ := h2
  refine ⟨ha2.trans ha1, hb2.trans hb1, fun p => ?_⟩
  obtain ⟨o1, x1, y1⟩ := hc1 p
  obtain ⟨o2, x2, y2⟩ := hc2 p
  exact ⟨o2.trans o1, x2.trans x1, y2.trans y1⟩

theorem gridFrame_inBounds {w w2 : World} (h : gridFrame w w2) (p : ℤ × ℤ) :
    w2.inBounds p ↔ w.inBounds p := by
  unfold World.inBounds
  rw [h.1, h.2.1]

theorem gridFrame_coordsOK {w w2 : World} (h : gridFrame w w2)
    (hc : w.coordsOK) : w2.coordsOK := by
  intro p hp
  obtain ⟨_, hx, hy⟩ := h.2.2 p
  rw [hx, hy]
  exact hc p ((gridFrame_inBounds h p).mp hp)

theorem gridFrame_territoryOK {w w2 : World} (h : gridFrame w w2)
    {c : Civilization} (ht : territoryOK w c) : territoryOK w2 c := by
  intro p hp
  obtain ⟨hin, how⟩ := ht p hp
  exact ⟨(gridFrame_inBounds h p).mpr hin, ((h.2.2 p).1).trans how⟩

theorem gridFrame_TerrInv {w w2 : World} {civs : List Civilization}
    (h : gridFrame w w2) (hi : TerrInv w civs) : TerrInv w2 civs := by
  obtain ⟨h1, h2, h3⟩ := hi
  exact ⟨gridFrame_coordsOK h h1, h2,
    fun c hc => ⟨gridFrame_territoryOK h ((h3 c hc).1), (h3 c hc).2⟩⟩

theorem update_climate_gridFrame (w : World) : gridFrame w w.update_climate := by
  refine ⟨rfl, rfl, fun p => ?_⟩
  unfold World.update_climate
  dsimp only
  split <;> exact ⟨rfl, rfl, rfl⟩

theorem update_resources_gridFrame (w : World) : gridFrame w w.update_resources := by
  refine ⟨rfl, rfl, fun p => ?_⟩
  unfold World.update_resources
  dsimp only
  split
  · unfold Cell.regenerate_food
    split <;> exact ⟨rfl, rfl, rfl⟩
  · exact ⟨rfl, rfl, rfl⟩

theorem harvestLoop_gridFrame (amount : ℤ) :
    ∀ (ps : List (ℤ × ℤ)) (w : World), gridFrame w (Civilization.harvestLoop w amount ps).1
  | [], w => gridFrame_refl w
  | p :: rest, w => by
    unfold Civilization.harvestLoop
    cases hc : w.get_cell p.1 p.2 with
    | none => exact harvestLoop_gridFrame amount rest w
    | some cell =>
      refine gridFrame_trans ?_ (harvestLoop_gridFrame amount rest _)
      refine ⟨rfl, rfl, fun q => ?_⟩
      rw [setCell_grid]
      split
      · subst q
        obtain ⟨_, hcell⟩ := get_cell_some hc
        rw [hcell]
        exact ⟨rfl, rfl, rfl⟩
      · exact ⟨rfl, rfl, rfl⟩

theorem droughtLoop_gridFrame :
    ∀ (ps : List (ℤ × ℤ)) (w : World), gridFrame w (droughtLoop w ps)
  | [], w => gridFrame_refl w
  | p :: rest, w => by
    unfold droughtLoop
    cases hc : w.get_cell p.1 p.2 with
    | none => exact droughtLoop_gridFrame rest w
    | some cell =>
      refine gridFrame_trans ?_ (droughtLoop_gridFrame rest _)
      refine ⟨rfl, rfl, fun q => ?_⟩
      rw [setCell_grid]
      split
      · subst q
        obtain ⟨_, hcell⟩ := get_cell_some hc
        rw [hcell]
        exact ⟨rfl, rfl, rfl⟩
      · exact ⟨rfl, rfl, rfl⟩

theorem bountifulLoop_gridFrame :
    ∀ (ps : List (ℤ × ℤ)) (w : World), gridFrame w (bountifulLoop w ps)
  | [], w => gridFrame_refl w
  | p :: rest, w => by
    unfold bountifulLoop
    cases hc : w.get_cell p.1 p.2 with
    | none => exact bountifulLoop_gridFrame rest w
    | some cell =>
      refine gridFrame_trans ?_ (bountifulLoop_gridFrame rest _)
      refine ⟨rfl, rfl, fun q => ?_⟩
      rw [setCell_grid]
      split
      · subst q
        obtain ⟨_, hcell⟩ := get_cell_some hc
        rw [hcell]
        exact ⟨rfl, rfl, rfl⟩
      · exact ⟨rfl, rfl, rfl⟩

theorem advance_day_grid (w : World) : w.advance_day.grid = w.grid :=
  rfl

theorem advance_day_TerrInv {w : World} {civs : List Civilization}
    (h : TerrInv w civs) : TerrInv w.advance_day civs :=
  h

theorem neighborsK_get {w : World} {x y : ℤ} {kc : (ℤ × ℤ) × Cell}
    (h : kc ∈ w.neighborsK x y) : w.get_cell kc.1.1 kc.1.2 = some kc.2 := by
  unfold World.neighborsK at h
  obtain ⟨d, hd, he⟩ := List.mem_filterMap.mp h
  cases hg : w.get_cell (x + d.1) (y + d.2) with
  | none =>
    rw [hg] at he
    cases he
  | some cell =>
    rw [hg] at he
    rw [Option.map_some'] at he
    have heq := Option.some.inj he
    subst heq
    exact hg

theorem findClaim_spec (w : World) : ∀ (terr : List (ℤ × ℤ)) (kc : (ℤ × ℤ) × Cell),
    Civilization.findClaim w terr = some kc →
    w.get_cell kc.1.1 kc.1.2 = some kc.2 ∧ kc.2.owner = none
  | [], _, h => by cases h
  | p :: rest, kc, h => by
    unfold Civilization.findClaim at h
    cases hf : (w.passableNeighborsK p.1 p.2).find? (fun kc => decide (kc.2.owner = none)) with
    | none =>
      rw [hf] at h
      exact findClaim_spec w rest kc h
    | some found =>
      rw [hf] at h
      have heq := Option.some.inj h
      subst heq
      have hmem := List.mem_of_find?_eq_some hf
      have hpred := List.find?_some hf
      refine ⟨?_, of_decide_eq_true hpred⟩
      exact neighborsK_get (List.mem_of_mem_filter hmem)

/-- What `execute_action` does to the world's ownership and the acting
civilization's territory: either nothing (all actions except a successful
expansion — harvesting only moves food), or it claims exactly one
previously-unowned in-grid cell, marking its owner and appending its
coordinates once. -/
theorem execute_action_terr (c : Civilization) (nearby : List Civilization)
    (w : World) (g : Rng) :
    (gridFrame w (c.execute_action nearby w g).2.1 ∧
      (c.execute_action nearby w g).1.territory = c.territory) ∨
    (∃ k cell, w.get_cell k.1 k.2 = some cell ∧ cell.owner = none ∧
      (c.execute_action nearby w g).2.1 = w.setCell k { cell with owner := some c.name } ∧
      (c.execute_action nearby w g).1.territory = c.territory ++ [(cell.x, cell.y)]) := by
  unfold Civilization.execute_action
  by_cases halive : c.is_alive = true
  · rw [if_neg (not_not_intro halive)]
    cases hst : c.state <;> dsimp only
    · exact Or.inl ⟨gridFrame_refl w, rfl⟩
    · exact Or.inl ⟨harvestLoop_gridFrame 20 c.territory w, rfl⟩
    · exact Or.inl ⟨harvestLoop_gridFrame 12 c.territory w, rfl⟩
    · unfold Civilization.action_expand
      cases hcl : Civilization.findClaim w c.territory with
      | none => exact Or.inl ⟨gridFrame_refl w, rfl⟩
      | some kc =>
        obtain ⟨hget, hnone⟩ := findClaim_spec w c.territory kc hcl
        exact Or.inr ⟨kc.1, kc.2, hget, hnone, rfl, rfl⟩
    · unfold Civilization.action_diplomacy
      cases hf : nearby.find? (fun o => (c.relations o.name).isNone) <;>
        exact Or.inl ⟨gridFrame_refl w, rfl⟩
    · exact Or.inl ⟨gridFrame_refl w, rfl⟩
    · exact Or.inl ⟨gridFrame_refl w, rfl⟩
  · rw [if_pos (by simpa using halive)]
    exact Or.inl ⟨gridFrame_refl w, rfl⟩

/-- Two civilization records with the same identity and territory. -/
def civSame (a b : Civilization) : Prop :=
  b.name = a.name ∧ b.territory = a.territory

/-- Territory growth: same identity, territory extended on the right. -/
def civGrows (a b : Civilization) : Prop :=
  b.name = a.name ∧ ∃ t, b.territory = a.territory ++ t

theorem civSame_grows {a b : Civilization} (h : civSame a b) : civGrows a b :=
  ⟨h.1, [], by rw [h.2, List.append_nil]⟩

theorem civGrows_trans {a b c : Civilization} (h1 : civGrows a b)
    (h2 : civGrows b c) : civGrows a c := by
  obtain ⟨hn1, t1, ht1⟩ := h1
  obtain ⟨hn2, t2, ht2⟩ := h2
  exact ⟨hn2.trans hn1, t1 ++ t2, by rw [ht2, ht1, List.append_assoc]⟩

theorem forall₂_civSame_refl (l : List Civilization) : List.Forall₂ civSame l l :=
  List.forall₂_same.mpr fun _ _ => ⟨rfl, rfl⟩

theorem forall₂_grows_refl (l : List Civilization) : List.Forall₂ civGrows l l :=
  List.forall₂_same.mpr fun _ _ => civSame_grows ⟨rfl, rfl⟩

theorem forall₂_grows_trans {a b c : List Civilization}
    (h1 : List.Forall₂ civGrows a b) (h2 : List.Forall₂ civGrows b c) :
    List.Forall₂ civGrows a c := by
  induction h1 generalizing c with
  | nil =>
    cases h2
    exact List.Forall₂.nil
  | cons hh ht ih =>
    cases h2 with
    | cons hh2 ht2 => exact List.Forall₂.cons (civGrows_trans hh hh2) (ih ht2)

theorem forall₂_civSame_names {a b : List Civilization}
    (h : List.Forall₂ civSame a b) :
    b.map Civilization.name = a.map Civilization.name := by
  induction h with
  | nil => rfl
  | cons hh ht ih => rw [List.map_cons, List.map_cons, hh.1, ih]

theorem forall₂_civSame_mem {a b : List Civilization}
    (h : List.Forall₂ civSame a b) : ∀ x ∈ b, ∃ y ∈ a, civSame y x := by
  induction h with
  | nil =>
    intro x hx
    cases hx
  | cons hh ht ih =>
    intro x hx
    rcases List.mem_cons.mp hx with rfl | hx2
    · exact ⟨_, List.mem_cons_self _ _, hh⟩
    · obtain ⟨u, hu, hs⟩ := ih x hx2
      exact ⟨u, List.mem_cons_of_mem _ hu, hs⟩

/-- `TerrInv` only depends on each civilization's name and territory. -/
theorem TerrInv_congr {w : World} {civs civs2 : List Civilization}
    (hs : List.Forall₂ civSame civs civs2) (h : TerrInv w civs) : TerrInv w civs2 := by
  obtain ⟨h1, h2, h3⟩ := h
  refine ⟨h1, ?_, ?_⟩
  · rw [forall₂_civSame_names hs]
    exact h2
  · intro b hb
    obtain ⟨a, ha, hsame⟩ := forall₂_civSame_mem hs b hb
    obtain ⟨ht, hnd⟩ := h3 a ha
    refine ⟨?_, hsame.2 ▸ hnd⟩
    intro p hp
    rw [hsame.2] at hp
    obtain ⟨hin, how⟩ := ht p hp
    exact ⟨hin, by rw [hsame.1]; exact how⟩

theorem relWriteTo_civSame (s : String) (us : String × ℤ) (o : Civilization) :
    civSame o (relWriteTo s us o) := by
  obtain ⟨rel, h⟩ := relWriteTo_shape s us o
  rw [h]
  exact ⟨rfl, rfl⟩

theorem applyRelWrite_civSame (s : String) (u : Option (String × ℤ))
    (l : List Civilization) : List.Forall₂ civSame l (applyRelWrite s u l) := by
  cases u with
  | none => exact forall₂_civSame_refl l
  | some us =>
    show List.Forall₂ civSame l (l.map (relWriteTo s us))
    rw [List.forall₂_map_right_iff]
    exact List.forall₂_same.mpr fun o _ => relWriteTo_civSame s us o

theorem update_state_civSame (c : Civilization) (nearby : List Civilization)
    (g : Rng) : civSame c (c.update_state nearby g).1 := by
  obtain ⟨st, h⟩ := update_state_shape c nearby g
  rw [h]
  exact ⟨rfl, rfl⟩

/-- The invariant-preservation core: executing one civilization's action in
a consistent state yields a consistent state, and the actor's territory
only grows. -/
theorem execute_TerrInv (c1 : Civilization) (done rest nearby : List Civilization)
    (w : World) (g1 : Rng) (hinv : TerrInv w (done ++ c1 :: rest)) :
    TerrInv (c1.execute_action nearby w g1).2.1
      (done ++ (c1.execute_action nearby w g1).1 :: rest) ∧
    civGrows c1 (c1.execute_action nearby w g1).1 := by
  have hname : (c1.execute_action nearby w g1).1.name = c1.name :=
    execute_action_name c1 nearby w g1
  rcases execute_action_terr c1 nearby w g1 with ⟨hframe, hterr⟩ | ⟨k, cell, hget, hnone, hw2, hterr⟩
  · constructor
    · refine TerrInv_congr ?_ (gridFrame_TerrInv hframe hinv)
      exact List.rel_append (forall₂_civSame_refl done)
        (List.Forall₂.cons ⟨hname, hterr⟩ (forall₂_civSame_refl rest))
    · exact civSame_grows ⟨hname, hterr⟩
  · obtain ⟨hin, hcelleq⟩ := get_cell_some hget
    obtain ⟨hcoords, hnames, hmembers⟩ := hinv
    have hk : ((w.grid (k.1, k.2)).x, (w.grid (k.1, k.2)).y) = (k.1, k.2) := hcoords _ hin
    have hcellxy : (cell.x, cell.y) = k := by
      rw [hcelleq]
      exact hk
    have hownone : (w.grid k).owner = none := by
      rw [← hcelleq]
      exact hnone
    have hterr2 : (c1.execute_action nearby w g1).1.territory = c1.territory ++ [k] := by
      rw [hterr, hcellxy]
    -- a territory point of any member is never the claimed cell
    have hnotk : ∀ o ∈ done ++ c1 :: rest, ∀ p ∈ o.territory, p ≠ k := by
      intro o ho p hp hpk
      have := ((hmembers o ho).1 p hp).2
      rw [hpk, hownone] at this
      cases this
    have hgrid2 : ∀ p, (c1.execute_action nearby w g1).2.1.grid p
        = if p = k then { cell with owner := some c1.name } else w.grid p := by
      intro p
      rw [hw2]
      rfl
    have hbounds2 : ∀ p, (c1.execute_action nearby w g1).2.1.inBounds p ↔ w.inBounds p := by
      intro p
      rw [hw2]
      exact Iff.rfl
    refine ⟨⟨?_, ?_, ?_⟩, ⟨hname, [k], hterr2⟩⟩
    · -- coordsOK
      intro p hp
      rw [hgrid2]
      split
      · subst p
        show ((cell.x : ℤ), (cell.y : ℤ)) = k
        exact hcellxy
      · exact hcoords p ((hbounds2 p).mp hp)
    · rw [List.map_append, List.map_cons, hname]
      rw [List.map_append, List.map_cons] at hnames
      exact hnames
    · intro o ho
      rcases List.mem_append.mp ho with hd | hcr
      · -- o untouched, in done
        have homem : o ∈ done ++ c1 :: rest := List.mem_append.mpr (Or.inl hd)
        obtain ⟨ht, hnd⟩ := hmembers o homem
        refine ⟨?_, hnd⟩
        intro p hp
        obtain ⟨hin2, how⟩ := ht p hp
        rw [hgrid2, if_neg (hnotk o homem p hp), hbounds2]
        exact ⟨hin2, how⟩
      · rcases List.mem_cons.mp hcr with rfl | hr
        · -- the actor
          obtain ⟨ht, hnd⟩ := hmembers c1 (List.mem_append.mpr (Or.inr (List.mem_cons_self c1 rest)))
          constructor
          · intro p hp
            rw [hterr2] at hp
            rw [hgrid2, hbounds2]
            rcases List.mem_append.mp hp with hold | hnew
            · obtain ⟨hin2, how⟩ := ht p hold
              rw [if_neg (hnotk c1 (List.mem_append.mpr (Or.inr (List.mem_cons_self c1 rest))) p hold)]
              refine ⟨hin2, ?_⟩
              rw [hname]
              exact how
            · rw [List.mem_singleton.mp hnew, if_pos rfl]
              refine ⟨?_, ?_⟩
              · exact hin
              · show some c1.name = some (c1.execute_action nearby w g1).1.name
                rw [hname]
          · rw [hterr2]
            rw [List.nodup_append]
            refine ⟨hnd, List.nodup_singleton k, ?_⟩
            intro p hp
            rw [List.mem_singleton]
            exact hnotk c1 (List.mem_append.mpr (Or.inr (List.mem_cons_self c1 rest))) p hp
        · -- o untouched, in rest
          have homem : o ∈ done ++ c1 :: rest :=
            List.mem_append.mpr (Or.inr (List.mem_cons_of_mem c1 hr))
          obtain ⟨ht, hnd⟩ := hmembers o homem
          refine ⟨?_, hnd⟩
          intro p hp
          obtain ⟨hin2, how⟩ := ht p hp
          rw [hgrid2, if_neg (hnotk o homem p hp), hbounds2]
          exact ⟨hin2, how⟩

/-- One full step of the civilization phase (FSM update, action execution,
relation write on both sides) preserves the territory/ownership invariant and
only ever grows the acting civilization's territory. -/
theorem civStepFull_TerrInv (c0 c2 : Civilization) (done rest nearby : List Civilization)
    (w w2 : World) (g g2 : Rng) (u : Option (String × ℤ))
    (hr : Civilization.execute_action (c0.update_state nearby g).1 nearby w
        (c0.update_state nearby g).2 = (c2, w2, u, g2))
    (hinv : TerrInv w (done ++ c0 :: rest)) :
    TerrInv w2 ((applyRelWrite c2.name u done ++ [c2]) ++ applyRelWrite c2.name u rest) ∧
    List.Forall₂ civGrows (done ++ c0 :: rest)
      ((applyRelWrite c2.name u done ++ [c2]) ++ applyRelWrite c2.name u rest) := by
  have hsame0 := update_state_civSame c0 nearby g
  have hinv1 : TerrInv w (done ++ (c0.update_state nearby g).1 :: rest) :=
    TerrInv_congr (List.rel_append (forall₂_civSame_refl done)
      (List.Forall₂.cons hsame0 (forall₂_civSame_refl rest))) hinv
  have hex := execute_TerrInv (c0.update_state nearby g).1 done rest nearby w
    (c0.update_state nearby g).2 hinv1
  rw [hr] at hex
  dsimp only at hex
  have hsame2 : List.Forall₂ civSame (done ++ c2 :: rest)
      ((applyRelWrite c2.name u done ++ [c2]) ++ applyRelWrite c2.name u rest) := by
    rw [List.append_assoc, List.singleton_append]
    exact List.rel_append (applyRelWrite_civSame _ _ done)
      (List.Forall₂.cons ⟨rfl, rfl⟩ (applyRelWrite_civSame _ _ rest))
  refine ⟨TerrInv_congr hsame2 hex.1, ?_⟩
  have hgrow : List.Forall₂ civGrows (done ++ c0 :: rest) (done ++ c2 :: rest) :=
    List.rel_append (forall₂_grows_refl done)
      (List.Forall₂.cons (civGrows_trans (civSame_grows hsame0) hex.2)
        (forall₂_grows_refl rest))
  exact forall₂_grows_trans hgrow (hsame2.imp (fun _ _ => civSame_grows))

/-- The whole civilization phase preserves the territory/ownership invariant,
and every civilization's territory only grows (as a suffix extension). -/
theorem civPhase_TerrInv : ∀ (pending done : List Civilization) (w : World) (g : Rng),
    TerrInv w (done ++ pending) →
    TerrInv (civPhase w done pending g).1 (civPhase w done pending g).2.1 ∧
    List.Forall₂ civGrows (done ++ pending) (civPhase w done pending g).2.1
  | [], done, w, g => by
    intro hinv
    unfold civPhase
    constructor
    · rw [List.append_nil] at hinv
      exact hinv
    · rw [List.append_nil]
      exact forall₂_grows_refl done
  | c0 :: rest, done, w, g => by
    intro hinv
    unfold civPhase
    split
    · have hassoc : (done ++ [c0]) ++ rest = done ++ c0 :: rest := by simp
      have h := civPhase_TerrInv rest (done ++ [c0]) w g (by rw [hassoc]; exact hinv)
      refine ⟨h.1, ?_⟩
      have h2 := h.2
      rw [hassoc] at h2
      exact h2
    · dsimp only
      have hstep := civStepFull_TerrInv c0 _ done rest
        (nearbyCivilizations w (done ++ c0 :: rest) c0) w _ g _ _ rfl hinv
      exact ⟨(civPhase_TerrInv _ _ _ _ hstep.1).1,
        forall₂_grows_trans hstep.2 (civPhase_TerrInv _ _ _ _ hstep.1).2⟩
termination_by pending => pending.length
decreasing_by
  all_goals simp [applyRelWrite_length]

theorem civSame_trans {a b c : Civilization} (h1 : civSame a b) (h2 : civSame b c) :
    civSame a c :=
  ⟨h2.1.trans h1.1, h2.2.trans h1.2⟩

theorem forall₂_civSame_trans {a b c : List Civilization}
    (h1 : List.Forall₂ civSame a b) (h2 : List.Forall₂ civSame b c) :
    List.Forall₂ civSame a c := by
  induction h1 generalizing c with
  | nil =>
    cases h2
    exact List.Forall₂.nil
  | cons hh ht ih =>
    cases h2 with
    | cons hh2 ht2 => exact List.Forall₂.cons (civSame_trans hh hh2) (ih ht2)

theorem updateByName_civSame (civs : List Civilization) (nm : String)
    (f : Civilization → Civilization) (hf : ∀ o, civSame o (f o)) :
    List.Forall₂ civSame civs (updateByName civs nm f) := by
  unfold updateByName
  rw [List.forall₂_map_right_iff]
  refine List.forall₂_same.mpr fun o _ => ?_
  by_cases h : o.name = nm
  · rw [if_pos h]
    exact hf o
  · rw [if_neg h]
    exact ⟨rfl, rfl⟩

theorem droughtExecute_shape (w : World) (civs : List Civilization) (g : Rng) :
    gridFrame w (droughtExecute w civs g).1 ∧
    List.Forall₂ civSame civs (droughtExecute w civs g).2.1 := by
  unfold droughtExecute droughtAt
  dsimp only [Rng.next]
  exact ⟨droughtLoop_gridFrame _ _, forall₂_civSame_refl civs⟩

theorem bountifulExecute_shape (w : World) (civs : List Civilization) (g : Rng) :
    gridFrame w (bountifulExecute w civs g).1 ∧
    List.Forall₂ civSame civs (bountifulExecute w civs g).2.1 := by
  unfold bountifulExecute
  dsimp only [Rng.next]
  exact ⟨bountifulLoop_gridFrame _ _, forall₂_civSame_refl civs⟩

theorem plagueExecute_shape (w : World) (civs : List Civilization) (g : Rng) :
    gridFrame w (plagueExecute w civs g).1 ∧
    List.Forall₂ civSame civs (plagueExecute w civs g).2.1 := by
  unfold plagueExecute
  cases hl : civs.filter (fun c => c.is_alive) with
  | nil => exact ⟨gridFrame_refl w, forall₂_civSame_refl civs⟩
  | cons a rest =>
    dsimp only [Rng.next]
    exact ⟨gridFrame_refl w, updateByName_civSame civs _ _ (fun o => ⟨rfl, rfl⟩)⟩

theorem techExecute_shape (w : World) (civs : List Civilization) (g : Rng) :
    gridFrame w (techExecute w civs g).1 ∧
    List.Forall₂ civSame civs (techExecute w civs g).2.1 := by
  unfold techExecute
  cases hl : civs.filter (fun c => c.is_alive) with
  | nil => exact ⟨gridFrame_refl w, forall₂_civSame_refl civs⟩
  | cons a rest =>
    dsimp only [Rng.next]
    exact ⟨gridFrame_refl w, updateByName_civSame civs _ _ (fun o => ⟨rfl, rfl⟩)⟩

theorem moraleCrisisExecute_shape (w : World) (civs : List Civilization) (g : Rng) :
    gridFrame w (moraleCrisisExecute w civs g).1 ∧
    List.Forall₂ civSame civs (moraleCrisisExecute w civs g).2.1 := by
  unfold moraleCrisisExecute
  cases hl : civs.filter (fun c => c.is_alive) with
  | nil => exact ⟨gridFrame_refl w, forall₂_civSame_refl civs⟩
  | cons a rest =>
    dsimp only [Rng.next]
    exact ⟨gridFrame_refl w, updateByName_civSame civs _ _ (fun o => ⟨rfl, rfl⟩)⟩

theorem eventStage_shape (prob : ℚ)
    (exec : World → List Civilization → Rng → World × List Civilization × Rng)
    (hexec : ∀ w c g, gridFrame w (exec w c g).1 ∧ List.Forall₂ civSame c (exec w c g).2.1)
    (wcg : World × List Civilization × Rng) :
    gridFrame wcg.1 (eventStage prob exec wcg).1 ∧
    List.Forall₂ civSame wcg.2.1 (eventStage prob exec wcg).2.1 := by
  unfold eventStage
  split
  · exact hexec _ _ _
  · exact ⟨gridFrame_refl _, forall₂_civSame_refl _⟩

/-- The random-event phase never touches ownership, coordinates, grid
dimensions, names or territories. -/
theorem processEvents_shape (w : World) (civs : List Civilization) (g : Rng) :
    gridFrame w (processEvents w civs g).1 ∧
    List.Forall₂ civSame civs (processEvents w civs g).2.1 := by
  unfold processEvents
  have h1 := eventStage_shape (1 / 1000) droughtExecute droughtExecute_shape (w, civs, g)
  have h2 := eventStage_shape (2 / 1000) bountifulExecute bountifulExecute_shape
    (eventStage (1 / 1000) droughtExecute (w, civs, g))
  have h3 := eventStage_shape (5 / 10000) plagueExecute plagueExecute_shape
    (eventStage (2 / 1000) bountifulExecute (eventStage (1 / 1000) droughtExecute (w, civs, g)))
  have h4 := eventStage_shape (1 / 1000) techExecute techExecute_shape
    (eventStage (5 / 10000) plagueExecute (eventStage (2 / 1000) bountifulExecute
      (eventStage (1 / 1000) droughtExecute (w, civs, g))))
  have h5 := eventStage_shape (3 / 10000) moraleCrisisExecute moraleCrisisExecute_shape
    (eventStage (1 / 1000) techExecute (eventStage (5 / 10000) plagueExecute
      (eventStage (2 / 1000) bountifulExecute (eventStage (1 / 1000) droughtExecute (w, civs, g)))))
  exact ⟨gridFrame_trans h1.1 (gridFrame_trans h2.1 (gridFrame_trans h3.1
      (gridFrame_trans h4.1 h5.1))),
    forall₂_civSame_trans h1.2 (forall₂_civSame_trans h2.2 (forall₂_civSame_trans h3.2
      (forall₂_civSame_trans h4.2 h5.2)))⟩

theorem popChanges_civSame (c : Civilization) (g : Rng) :
    civSame c (c.process_population_changes g).1 := by
  unfold Civilization.process_population_changes
  by_cases h : c.is_alive = true
  · rw [if_neg (not_not_intro h)]
    dsimp only [Rng.next]
    split_ifs <;> exact ⟨rfl, rfl⟩
  · rw [if_pos (by simpa using h)]
    exact ⟨rfl, rfl⟩

theorem popPhase_civSame : ∀ (civs : List Civilization) (g : Rng),
    List.Forall₂ civSame civs (popPhase civs g).1
  | [], _ => List.Forall₂.nil
  | c :: rest, g => by
    unfold popPhase
    dsimp only
    exact List.Forall₂.cons (popChanges_civSame c g) (popPhase_civSame rest _)

/-- One full simulation day preserves the territory/ownership invariant and
every civilization's territory only ever grows. -/
theorem tick_TerrInv (s : Simulation) (g : Rng)
    (hinv : TerrInv s.world s.civilizations) :
    TerrInv (s.tick g).1.world (s.tick g).1.civilizations ∧
    List.Forall₂ civGrows s.civilizations (s.tick g).1.civilizations := by
  unfold Simulation.tick
  dsimp only
  have hframe : gridFrame s.world s.world.update_climate.update_resources :=
    gridFrame_trans (update_climate_gridFrame s.world)
      (update_resources_gridFrame s.world.update_climate)
  have hinv2 : TerrInv s.world.update_climate.update_resources s.civilizations :=
    gridFrame_TerrInv hframe hinv
  have hciv := civPhase_TerrInv s.civilizations []
    s.world.update_climate.update_resources g hinv2
  have hev := processEvents_shape
    (civPhase s.world.update_climate.update_resources [] s.civilizations g).1
    (civPhase s.world.update_climate.update_resources [] s.civilizations g).2.1
    (civPhase s.world.update_climate.update_resources [] s.civilizations g).2.2
  have hinv4 := TerrInv_congr hev.2 (gridFrame_TerrInv hev.1 hciv.1)
  have hpop := popPhase_civSame
    (processEvents
      (civPhase s.world.update_climate.update_resources [] s.civilizations g).1
      (civPhase s.world.update_climate.update_resources [] s.civilizations g).2.1
      (civPhase s.world.update_climate.update_resources [] s.civilizations g).2.2).2.1
    (processEvents
      (civPhase s.world.update_climate.update_resources [] s.civilizations g).1
      (civPhase s.world.update_climate.update_resources [] s.civilizations g).2.1
      (civPhase s.world.update_climate.update_resources [] s.civilizations g).2.2).2.2
  have hinv5 := TerrInv_congr hpop hinv4
  refine ⟨advance_day_TerrInv hinv5, ?_⟩
  exact forall₂_grows_trans hciv.2 (forall₂_grows_trans
    (hev.2.imp (fun _ _ => civSame_grows)) (hpop.imp (fun _ _ => civSame_grows)))

/-- Claiming a single unowned in-grid cell (setting its owner and appending
its coordinates to the claimant's territory) preserves the invariant. -/
theorem claimCell_TerrInv (w : World) (done rest : List Civilization)
    (c c2 : Civilization) (k : ℤ × ℤ) (cell : Cell)
    (hget : w.get_cell k.1 k.2 = some cell) (hnone : cell.owner = none)
    (hname : c2.name = c.name)
    (hterr : c2.territory = c.territory ++ [(cell.x, cell.y)])
    (hinv : TerrInv w (done ++ c :: rest)) :
    TerrInv (w.setCell k { cell with owner := some c.name }) (done ++ c2 :: rest) := by
  obtain ⟨hin, hcelleq⟩ := get_cell_some hget
  obtain ⟨hcoords, hnames, hmembers⟩ := hinv
  have hk : ((w.grid (k.1, k.2)).x, (w.grid (k.1, k.2)).y) = (k.1, k.2) := hcoords _ hin
  have hcellxy : (cell.x, cell.y) = k := by
    rw [hcelleq]
    exact hk
  have hownone : (w.grid k).owner = none := by
    rw [← hcelleq]
    exact hnone
  have hterr2 : c2.territory = c.territory ++ [k] := by
    rw [hterr, hcellxy]
  have hnotk : ∀ o ∈ done ++ c :: rest, ∀ p ∈ o.territory, p ≠ k := by
    intro o ho p hp hpk
    have := ((hmembers o ho).1 p hp).2
    rw [hpk, hownone] at this
    cases this
  have hcmem : c ∈ done ++ c :: rest :=
    List.mem_append.mpr (Or.inr (List.mem_cons_self c rest))
  refine ⟨?_, ?_, ?_⟩
  · intro p hp
    rw [setCell_grid]
    split
    · subst p
      show ((cell.x : ℤ), (cell.y : ℤ)) = k
      exact hcellxy
    · exact hcoords p ((setCell_inBounds w k _ p).mp hp)
  · rw [List.map_append, List.map_cons, hname]
    rw [List.map_append, List.map_cons] at hnames
    exact hnames
  · intro o ho
    rcases List.mem_append.mp ho with hd | hcr
    · have homem : o ∈ done ++ c :: rest := List.mem_append.mpr (Or.inl hd)
      obtain ⟨ht, hnd⟩ := hmembers o homem
      refine ⟨?_, hnd⟩
      intro p hp
      obtain ⟨hin2, how⟩ := ht p hp
      rw [setCell_grid, if_neg (hnotk o homem p hp), setCell_inBounds]
      exact ⟨hin2, how⟩
    · rcases List.mem_cons.mp hcr with rfl | hr
      · obtain ⟨ht, hnd⟩ := hmembers c hcmem
        constructor
        · intro p hp
          rw [hterr2] at hp
          rw [setCell_grid, setCell_inBounds]
          rcases List.mem_append.mp hp with hold | hnew
          · obtain ⟨hin2, how⟩ := ht p hold
            rw [if_neg (hnotk c hcmem p hold)]
            refine ⟨hin2, ?_⟩
            rw [hname]
            exact how
          · rw [List.mem_singleton.mp hnew, if_pos rfl]
            refine ⟨hin, ?_⟩
            show some c.name = some o.name
            rw [hname]
        · rw [hterr2]
          rw [List.nodup_append]
          refine ⟨hnd, List.nodup_singleton k, ?_⟩
          intro p hp
          rw [List.mem_singleton]
          exact hnotk c hcmem p hp
      · have homem : o ∈ done ++ c :: rest :=
          List.mem_append.mpr (Or.inr (List.mem_cons_of_mem c hr))
        obtain ⟨ht, hnd⟩ := hmembers o homem
        refine ⟨?_, hnd⟩
        intro p hp
        obtain ⟨hin2, how⟩ := ht p hp
        rw [setCell_grid, if_neg (hnotk o homem p hp), setCell_inBounds]
        exact ⟨hin2, how⟩

/-- The starting-territory claim loop preserves the invariant with the new
civilization appended to the roster. -/
theorem claimLoop_TerrInv : ∀ (ps : List (ℤ × ℤ)) (c : Civilization) (w : World)
    (civs : List Civilization), TerrInv w (civs ++ c :: []) →
    TerrInv (Civilization.claimLoop c w ps).2
      (civs ++ (Civilization.claimLoop c w ps).1 :: [])
  | [], c, w, civs, h => by
    unfold Civilization.claimLoop
    exact h
  | p :: rest, c, w, civs, h => by
    unfold Civilization.claimLoop
    cases hc : w.get_cell p.1 p.2 with
    | none => exact claimLoop_TerrInv rest c w civs h
    | some cell =>
      dsimp only
      split
      · rename_i hcond
        refine claimLoop_TerrInv rest _ _ civs ?_
        exact claimCell_TerrInv w civs [] c _ p cell hc hcond.2 rfl rfl h
      · exact claimLoop_TerrInv rest c w civs h

/-- `Civilization.__init__` with a fresh name preserves the invariant with
the newcomer appended to the roster. -/
theorem mkCivilization_TerrInv (name : String) (x y : ℤ) (w : World)
    (civs : List Civilization) (g : Rng) (hinv : TerrInv w civs)
    (hfresh : name ∉ civs.map Civilization.name) :
    TerrInv (mkCivilization name x y w g).2.1
      (civs ++ [(mkCivilization name x y w g).1]) := by
  unfold mkCivilization Civilization.claim_starting_territory
  dsimp only [Rng.next]
  refine claimLoop_TerrInv _ _ _ civs ?_
  obtain ⟨h1, h2, h3⟩ := hinv
  refine ⟨h1, ?_, ?_⟩
  · rw [List.map_append, List.map_cons, List.map_nil]
    rw [List.nodup_append]
    refine ⟨h2, List.nodup_singleton _, ?_⟩
    intro nm hnm he
    rw [List.mem_singleton] at he
    rw [he] at hnm
    exact hfresh hnm
  · intro o ho
    rcases List.mem_append.mp ho with hciv | hc0
    · exact h3 o hciv
    · rw [List.mem_singleton.mp hc0]
      constructor
      · intro p hp
        simp at hp
      · exact List.nodup_nil

/-- `Simulation.add_civilization` with a fresh name preserves the invariant
whenever it succeeds. -/
theorem add_civilization_TerrInv (s : Simulation) (name : String) (g : Rng)
    (s2 : Simulation) (g2 : Rng)
    (hinv : TerrInv s.world s.civilizations)
    (hfresh : name ∉ s.civilizations.map Civilization.name)
    (h : s.add_civilization name g = some (s2, g2)) :
    TerrInv s2.world s2.civilizations := by
  unfold Simulation.add_civilization at h
  cases hf : findStartPos s.world s.civilizations 100 g with
  | none =>
    rw [hf] at h
    cases h
  | some pg =>
    rw [hf] at h
    dsimp only at h
    have he := Option.some.inj h
    have hs2 := congrArg Prod.fst he
    dsimp only at hs2
    rw [← hs2]
    exact mkCivilization_TerrInv name pg.1.1 pg.1.2 s.world s.civilizations pg.2 hinv hfresh

instance (w : World) (c : Civilization) : Decidable (territoryOK w c) := by
  unfold territoryOK
  infer_instance

/-- C1: between ticks, every coordinate in a civilization's territory list
denotes an in-grid cell whose owner is that civilization's name (and the
list has no duplicates); under that invariant no coordinate ever appears in
two civilizations' territories; territories only ever grow across a tick
(old list is a prefix of the new one, so size is monotone non-decreasing);
and both `Civilization.__init__`'s starting 3×3 claim and
`Simulation.add_civilization` (with a fresh name) establish the invariant
for the extended roster — cells are claimed only when unowned, appended
exactly once, never removed or reassigned. -/
theorem c1_territory_ownership_sync :
    (∀ (s : Simulation) (g : Rng), TerrInv s.world s.civilizations →
      TerrInv (s.tick g).1.world (s.tick g).1.civilizations ∧
      List.Forall₂ civGrows s.civilizations (s.tick g).1.civilizations ∧
      List.Forall₂ (fun a b => a.territory.length ≤ b.territory.length)
        s.civilizations (s.tick g).1.civilizations) ∧
    (∀ (w : World) (civs : List Civilization), TerrInv w civs →
      ∀ a ∈ civs, ∀ b ∈ civs, ∀ p : ℤ × ℤ,
        p ∈ a.territory → p ∈ b.territory → a = b) ∧
    (∀ (nm : String) (x y : ℤ) (w : World) (civs : List Civilization) (g : Rng),
      TerrInv w civs → nm ∉ civs.map Civilization.name →
      TerrInv (mkCivilization nm x y w g).2.1
        (civs ++ [(mkCivilization nm x y w g).1])) ∧
    (∀ (s : Simulation) (nm : String) (g : Rng) (s2 : Simulation) (g2 : Rng),
      TerrInv s.world s.civilizations → nm ∉ s.civilizations.map Civilization.name →
      s.add_civilization nm g = some (s2, g2) → TerrInv s2.world s2.civilizations) := by
  refine ⟨?_, ?_, ?_, ?_⟩
  · intro s g hinv
    have h := tick_TerrInv s g hinv
    refine ⟨h.1, h.2, h.2.imp ?_⟩
    intro a b hg
    obtain ⟨_, t, ht⟩ := hg
    rw [ht, List.length_append]
    omega
  · intro w civs hinv a ha b hb p hpa hpb
    obtain ⟨_, hnd, hmem⟩ := hinv
    have h1 := ((hmem a ha).1 p hpa).2
    have h2 := ((hmem b hb).1 p hpb).2
    rw [h1] at h2
    exact eq_of_name_eq hnd ha hb (Option.some.inj h2)
  · intro nm x y w civs g hinv hfresh
    exact mkCivilization_TerrInv nm x y w civs g hinv hfresh
  · intro s nm g s2 g2 hinv hfresh h
    exact add_civilization_TerrInv s nm g s2 g2 hinv hfresh h

/-- A 12×12 world where exactly the cell `(1, 1)` is owned, by `"A"`. -/
def terrWorld : World :=
  { width := 12, height := 12,
    grid := fun p =>
      { plainsCell with x := p.1, y := p.2,
                        owner := if p = (1, 1) then some "A" else none },
    current_day := 0, current_year := 1 }

/-- The civilization `"A"` holding exactly the cell `(1, 1)`. -/
def terrCiv : Civilization :=
  { witnessCiv with capital := (1, 1) }

theorem c1_witness :
    TerrInv terrWorld [terrCiv] ∧
    (TerrInv (Simulation.tick ⟨terrWorld, [terrCiv]⟩ zeroRng).1.world
        (Simulation.tick ⟨terrWorld, [terrCiv]⟩ zeroRng).1.civilizations ∧
      List.Forall₂ civGrows [terrCiv]
        (Simulation.tick ⟨terrWorld, [terrCiv]⟩ zeroRng).1.civilizations) ∧
    TerrInv (mkCivilization "B" 8 8 terrWorld zeroRng).2.1
      ([terrCiv] ++ [(mkCivilization "B" 8 8 terrWorld zeroRng).1]) := by
  have hinv : TerrInv terrWorld [terrCiv] := ⟨fun p _ => rfl, by decide, by decide⟩
  refine ⟨hinv, ?_, ?_⟩
  · have h := c1_territory_ownership_sync.1 ⟨terrWorld, [terrCiv]⟩ zeroRng hinv
    exact ⟨h.1, h.2.1⟩
  · exact c1_territory_ownership_sync.2.2.1 "B" 8 8 terrWorld [terrCiv] zeroRng hinv
      (by decide)

/-! ### Run-level immutability of diplomatic relations (claim C5) -/

/-- Name preserved and the whole relations table preserved pointwise. -/
def relSame (a b : Civilization) : Prop :=
  b.name = a.name ∧ ∀ k, b.relations k = a.relations k

/-- Name preserved and every established relation entry preserved with its
score (entries may be added, never changed or removed). -/
def relKeeps (a b : Civilization) : Prop :=
  b.name = a.name ∧ ∀ k v, a.relations k = some v → b.relations k = some v

/-- The relations run invariant: unique names, and the two sides of every
pair always hold identical entries for each other. -/
def RelInv (civs : List Civilization) : Prop :=
  (civs.map Civilization.name).Nodup ∧
    ∀ a ∈ civs, ∀ b ∈ civs, a.relations b.name = b.relations a.name

instance (civs : List Civilization) : Decidable (RelInv civs) := by
  unfold RelInv
  infer_instance

theorem relSame_keeps {a b : Civilization} (h : relSame a b) : relKeeps a b :=
  ⟨h.1, fun k v hv => by rw [h.2 k]; exact hv⟩

theorem relKeeps_trans {a b c : Civilization} (h1 : relKeeps a b)
    (h2 : relKeeps b c) : relKeeps a c :=
  ⟨h2.1.trans h1.1, fun k v hv => h2.2 k v (h1.2 k v hv)⟩

theorem forall₂_relSame_refl (l : List Civilization) : List.Forall₂ relSame l l :=
  List.forall₂_same.mpr fun _ _ => ⟨rfl, fun _ => rfl⟩

theorem forall₂_relKeeps_refl (l : List Civilization) : List.Forall₂ relKeeps l l :=
  List.forall₂_same.mpr fun _ _ => relSame_keeps ⟨rfl, fun _ => rfl⟩

theorem forall₂_relSame_trans {a b c : List Civilization}
    (h1 : List.Forall₂ relSame a b) (h2 : List.Forall₂ relSame b c) :
    List.Forall₂ relSame a c := by
  induction h1 generalizing c with
  | nil =>
    cases h2
    exact List.Forall₂.nil
  | cons hh ht ih =>
    cases h2 with
    | cons hh2 ht2 =>
      exact List.Forall₂.cons
        ⟨hh2.1.trans hh.1, fun k => (hh2.2 k).trans (hh.2 k)⟩ (ih ht2)

theorem forall₂_relKeeps_trans {a b c : List Civilization}
    (h1 : List.Forall₂ relKeeps a b) (h2 : List.Forall₂ relKeeps b c) :
    List.Forall₂ relKeeps a c := by
  induction h1 generalizing c with
  | nil =>
    cases h2
    exact List.Forall₂.nil
  | cons hh ht ih =>
    cases h2 with
    | cons hh2 ht2 => exact List.Forall₂.cons (relKeeps_trans hh hh2) (ih ht2)

theorem forall₂_relSame_names {a b : List Civilization}
    (h : List.Forall₂ relSame a b) :
    b.map Civilization.name = a.map Civilization.name := by
  induction h with
  | nil => rfl
  | cons hh ht ih => rw [List.map_cons, List.map_cons, hh.1, ih]

theorem forall₂_relSame_mem {a b : List Civilization}
    (h : List.Forall₂ relSame a b) : ∀ x ∈ b, ∃ y ∈ a, relSame y x := by
  induction h with
  | nil =>
    intro x hx
    cases hx
  | cons hh ht ih =>
    intro x hx
    rcases List.mem_cons.mp hx with rfl | hx2
    · exact ⟨_, List.mem_cons_self _ _, hh⟩
    · obtain ⟨u, hu, hs⟩ := ih x hx2
      exact ⟨u, List.mem_cons_of_mem _ hu, hs⟩

/-- `RelInv` only depends on each civilization's name and relations table. -/
theorem RelInv_congr {civs civs2 : List Civilization}
    (hs : List.Forall₂ relSame civs civs2) (h : RelInv civs) : RelInv civs2 := by
  obtain ⟨hnd, hsym⟩ := h
  refine ⟨?_, ?_⟩
  · rw [forall₂_relSame_names hs]
    exact hnd
  · intro x hx y hy
    obtain ⟨x0, hx0, hxs⟩ := forall₂_relSame_mem hs x hx
    obtain ⟨y0, hy0, hys⟩ := forall₂_relSame_mem hs y hy
    rw [hys.1, hxs.1, hxs.2 y0.name, hys.2 x0.name]
    exact hsym x0 hx0 y0 hy0

theorem update_state_relSame (c : Civilization) (nearby : List Civilization)
    (g : Rng) : relSame c (c.update_state nearby g).1 := by
  obtain ⟨st, h⟩ := update_state_shape c nearby g
  rw [h]
  exact ⟨rfl, fun _ => rfl⟩

theorem popChanges_relSame (c : Civilization) (g : Rng) :
    relSame c (c.process_population_changes g).1 := by
  refine ⟨popChanges_name c g, ?_⟩
  intro k
  unfold Civilization.process_population_changes
  by_cases h : c.is_alive = true
  · rw [if_neg (not_not_intro h)]
    dsimp only [Rng.next]
    split_ifs <;> rfl
  · rw [if_pos (by simpa using h)]

theorem popPhase_relSame : ∀ (civs : List Civilization) (g : Rng),
    List.Forall₂ relSame civs (popPhase civs g).1
  | [], _ => List.Forall₂.nil
  | c :: rest, g => by
    unfold popPhase
    dsimp only
    exact List.Forall₂.cons (popChanges_relSame c g) (popPhase_relSame rest _)

theorem updateByName_relSame (civs : List Civilization) (nm : String)
    (f : Civilization → Civilization) (hf : ∀ o, relSame o (f o)) :
    List.Forall₂ relSame civs (updateByName civs nm f) := by
  unfold updateByName
  rw [List.forall₂_map_right_iff]
  refine List.forall₂_same.mpr fun o _ => ?_
  by_cases h : o.name = nm
  · rw [if_pos h]
    exact hf o
  · rw [if_neg h]
    exact ⟨rfl, fun _ => rfl⟩

theorem plagueExecute_relSame (w : World) (civs : List Civilization) (g : Rng) :
    List.Forall₂ relSame civs (plagueExecute w civs g).2.1 := by
  unfold plagueExecute
  cases hl : civs.filter (fun c => c.is_alive) with
  | nil => exact forall₂_relSame_refl civs
  | cons a rest =>
    dsimp only [Rng.next]
    exact updateByName_relSame civs _ _ (fun o => ⟨rfl, fun _ => rfl⟩)

theorem techExecute_relSame (w : World) (civs : List Civilization) (g : Rng) :
    List.Forall₂ relSame civs (techExecute w civs g).2.1 := by
  unfold techExecute
  cases hl : civs.filter (fun c => c.is_alive) with
  | nil => exact forall₂_relSame_refl civs
  | cons a rest =>
    dsimp only [Rng.next]
    exact updateByName_relSame civs _ _ (fun o => ⟨rfl, fun _ => rfl⟩)

theorem moraleCrisisExecute_relSame (w : World) (civs : List Civilization) (g : Rng) :
    List.Forall₂ relSame civs (moraleCrisisExecute w civs g).2.1 := by
  unfold moraleCrisisExecute
  cases hl : civs.filter (fun c => c.is_alive) with
  | nil => exact forall₂_relSame_refl civs
  | cons a rest =>
    dsimp only [Rng.next]
    exact updateByName_relSame civs _ _ (fun o => ⟨rfl, fun _ => rfl⟩)

theorem droughtExecute_relSame (w : World) (civs : List Civilization) (g : Rng) :
    List.Forall₂ relSame civs (droughtExecute w civs g).2.1 := by
  unfold droughtExecute
  dsimp only [Rng.next]
  exact forall₂_relSame_refl civs

theorem bountifulExecute_relSame (w : World) (civs : List Civilization) (g : Rng) :
    List.Forall₂ relSame civs (bountifulExecute w civs g).2.1 := by
  unfold bountifulExecute
  dsimp only [Rng.next]
  exact forall₂_relSame_refl civs

theorem eventStage_relSame (prob : ℚ)
    (exec : World → List Civilization → Rng → World × List Civilization × Rng)
    (hexec : ∀ w c g, List.Forall₂ relSame c (exec w c g).2.1)
    (wcg : World × List Civilization × Rng) :
    List.Forall₂ relSame wcg.2.1 (eventStage prob exec wcg).2.1 := by
  unfold eventStage
  split
  · exact hexec _ _ _
  · exact forall₂_relSame_refl _

/-- The random-event phase passes every relations table through verbatim:
plague, discovery and morale crisis rewrite only population, morale and
tech level, and the two world events never touch the roster. -/
theorem processEvents_relSame (w : World) (civs : List Civilization) (g : Rng) :
    List.Forall₂ relSame civs (processEvents w civs g).2.1 := by
  unfold processEvents
  have h1 := eventStage_relSame (1 / 1000) droughtExecute droughtExecute_relSame (w, civs, g)
  have h2 := eventStage_relSame (2 / 1000) bountifulExecute bountifulExecute_relSame
    (eventStage (1 / 1000) droughtExecute (w, civs, g))
  have h3 := eventStage_relSame (5 / 10000) plagueExecute plagueExecute_relSame
    (eventStage (2 / 1000) bountifulExecute (eventStage (1 / 1000) droughtExecute (w, civs, g)))
  have h4 := eventStage_relSame (1 / 1000) techExecute techExecute_relSame
    (eventStage (5 / 10000) plagueExecute (eventStage (2 / 1000) bountifulExecute
      (eventStage (1 / 1000) droughtExecute (w, civs, g))))
  have h5 := eventStage_relSame (3 / 10000) moraleCrisisExecute moraleCrisisExecute_relSame
    (eventStage (1 / 1000) techExecute (eventStage (5 / 10000) plagueExecute
      (eventStage (2 / 1000) bountifulExecute (eventStage (1 / 1000) droughtExecute (w, civs, g)))))
  exact forall₂_relSame_trans h1 (forall₂_relSame_trans h2 (forall₂_relSame_trans h3
    (forall₂_relSame_trans h4 h5)))

/-- `execute_action` either leaves the actor's relations table untouched and
emits no write, or (Diplomacy with a fresh target) adds exactly one entry
under a previously unestablished key and emits the matching write. -/
theorem execute_action_rel (c : Civilization) (nearby : List Civilization)
    (w : World) (g : Rng) :
    ((c.execute_action nearby w g).2.2.1 = none ∧
      ∀ k, (c.execute_action nearby w g).1.relations k = c.relations k) ∨
    (∃ us : String × ℤ,
      (c.execute_action nearby w g).2.2.1 = some us ∧
      c.relations us.1 = none ∧
      ∀ k, (c.execute_action nearby w g).1.relations k =
        if k = us.1 then some us.2 else c.relations k) := by
  unfold Civilization.execute_action
  by_cases halive : c.is_alive = true
  · rw [if_neg (not_not_intro halive)]
    cases hst : c.state
    · exact Or.inl ⟨rfl, fun _ => rfl⟩
    · exact Or.inl ⟨rfl, fun _ => rfl⟩
    · exact Or.inl ⟨rfl, fun _ => rfl⟩
    · dsimp only
      unfold Civilization.action_expand
      cases h : Civilization.findClaim w c.territory
      · exact Or.inl ⟨rfl, fun _ => rfl⟩
      · exact Or.inl ⟨rfl, fun _ => rfl⟩
    · dsimp only
      unfold Civilization.action_diplomacy
      cases hf : nearby.find? (fun o => (c.relations o.name).isNone) with
      | none => exact Or.inl ⟨rfl, fun _ => rfl⟩
      | some other =>
        dsimp only [Rng.next]
        have hN := List.find?_some hf
        have hnone : c.relations other.name = none := Option.isNone_iff_eq_none.mp hN
        exact Or.inr ⟨_, rfl, hnone, fun _ => rfl⟩
    · exact Or.inl ⟨rfl, fun _ => rfl⟩
    · exact Or.inl ⟨rfl, fun _ => rfl⟩
  · rw [if_pos (by simpa using halive)]
    exact Or.inl ⟨rfl, fun _ => rfl⟩

/-- Establishing one fresh relation (the actor adds the entry under the
other's name; the write adds the same score under the actor's name on the
civilization named by the write) preserves the relations invariant, and no
established entry of anybody changes. -/
theorem claimRel_RelInv (c0 c2 : Civilization) (pre post : List Civilization)
    (us : String × ℤ)
    (hname : c2.name = c0.name)
    (hnone : c0.relations us.1 = none)
    (hc2 : ∀ k, c2.relations k = if k = us.1 then some us.2 else c0.relations k)
    (hinv : RelInv (pre ++ c0 :: post)) :
    RelInv (applyRelWrite c2.name (some us) pre ++
      c2 :: applyRelWrite c2.name (some us) post) ∧
    List.Forall₂ relKeeps (pre ++ c0 :: post)
      (applyRelWrite c2.name (some us) pre ++
        c2 :: applyRelWrite c2.name (some us) post) := by
  obtain ⟨hnd, hsym⟩ := hinv
  have hc0mem : c0 ∈ pre ++ c0 :: post :=
    List.mem_append.mpr (Or.inr (List.mem_cons_self c0 post))
  have hup : ∀ b ∈ pre ++ post, b ∈ pre ++ c0 :: post := by
    intro b hb
    rcases List.mem_append.mp hb with h | h
    · exact List.mem_append.mpr (Or.inl h)
    · exact List.mem_append.mpr (Or.inr (List.mem_cons_of_mem _ h))
  have hndm := hnd
  rw [List.map_append, List.map_cons] at hndm
  obtain ⟨hndpre, hndcons, hdisj⟩ := List.nodup_append.mp hndm
  have hbN : ∀ b ∈ pre ++ post, b.name ≠ c2.name := by
    intro b hb he
    rw [hname] at he
    rcases List.mem_append.mp hb with h | h
    · exact hdisj (List.mem_map_of_mem _ h) (by rw [he]; exact List.mem_cons_self _ _)
    · exact (List.nodup_cons.mp hndcons).1 (by rw [← he]; exact List.mem_map_of_mem _ h)
  have hwrel : ∀ (b : Civilization) (k : String),
      (relWriteTo c2.name us b).relations k =
        if b.name = us.1 ∧ k = c2.name then some us.2 else b.relations k := by
    intro b k
    unfold relWriteTo
    by_cases hb : b.name = us.1
    · rw [if_pos hb]
      dsimp only
      by_cases hk : k = c2.name
      · rw [if_pos hk, if_pos ⟨hb, hk⟩]
      · rw [if_neg hk, if_neg (fun h : _ ∧ _ => hk h.2)]
    · rw [if_neg hb, if_neg (fun h : _ ∧ _ => hb h.1)]
  have hmap : ∀ l : List Civilization,
      applyRelWrite c2.name (some us) l = l.map (relWriteTo c2.name us) := fun _ => rfl
  have hmemNew : ∀ x ∈ applyRelWrite c2.name (some us) pre ++
      c2 :: applyRelWrite c2.name (some us) post,
      x = c2 ∨ ∃ b, b ∈ pre ++ post ∧ x = relWriteTo c2.name us b := by
    intro x hx
    rcases List.mem_append.mp hx with h1 | h2
    · rw [hmap] at h1
      obtain ⟨b, hb, he⟩ := List.mem_map.mp h1
      exact Or.inr ⟨b, List.mem_append.mpr (Or.inl hb), he.symm⟩
    · rcases List.mem_cons.mp h2 with rfl | h3
      · exact Or.inl rfl
      · rw [hmap] at h3
        obtain ⟨b, hb, he⟩ := List.mem_map.mp h3
        exact Or.inr ⟨b, List.mem_append.mpr (Or.inr hb), he.symm⟩
  have hkeep : ∀ b ∈ pre ++ post, relKeeps b (relWriteTo c2.name us b) := by
    intro b hb
    refine ⟨relWriteTo_name c2.name us b, ?_⟩
    intro k v hkv
    rw [hwrel b k]
    by_cases hcond : b.name = us.1 ∧ k = c2.name
    · exfalso
      have hbn : b.relations k = none := by
        rw [hcond.2, hname, hsym b (hup b hb) c0 hc0mem, hcond.1]
        exact hnone
      rw [hbn] at hkv
      cases hkv
    · rw [if_neg hcond]
      exact hkv
  refine ⟨⟨?_, ?_⟩, ?_⟩
  · have he : (applyRelWrite c2.name (some us) pre ++
        c2 :: applyRelWrite c2.name (some us) post).map Civilization.name
        = (pre ++ c0 :: post).map Civilization.name := by
      rw [List.map_append, List.map_cons, applyRelWrite_names, applyRelWrite_names,
        hname, List.map_append, List.map_cons]
    rw [he]
    exact hnd
  · intro x hx y hy
    rcases hmemNew x hx with hxe | ⟨a, ha, hxe⟩
    · rcases hmemNew y hy with hye | ⟨b, hb, hye⟩
      · rw [hxe, hye]
      · rw [hxe, hye]
        rw [relWriteTo_name c2.name us b, hwrel b c2.name]
        by_cases hbus : b.name = us.1
        · rw [if_pos ⟨hbus, rfl⟩, hbus, hc2 us.1, if_pos rfl]
        · rw [if_neg (fun h : _ ∧ _ => hbus h.1), hc2 b.name, if_neg hbus, hname]
          exact hsym c0 hc0mem b (hup b hb)
    · rcases hmemNew y hy with hye | ⟨b, hb, hye⟩
      · rw [hxe, hye]
        rw [relWriteTo_name c2.name us a, hwrel a c2.name]
        by_cases haus : a.name = us.1
        · rw [if_pos ⟨haus, rfl⟩, haus, hc2 us.1, if_pos rfl]
        · rw [if_neg (fun h : _ ∧ _ => haus h.1), hc2 a.name, if_neg haus, hname]
          exact hsym a (hup a ha) c0 hc0mem
      · rw [hxe, hye]
        rw [relWriteTo_name c2.name us b, relWriteTo_name c2.name us a,
          hwrel a b.name, hwrel b a.name,
          if_neg (fun h : _ ∧ _ => hbN b hb h.2), if_neg (fun h : _ ∧ _ => hbN a ha h.2)]
        exact hsym a (hup a ha) b (hup b hb)
  · refine List.rel_append ?_ (List.Forall₂.cons ?_ ?_)
    · show List.Forall₂ relKeeps pre (pre.map (relWriteTo c2.name us))
      rw [List.forall₂_map_right_iff]
      exact List.forall₂_same.mpr fun b hb => hkeep b (List.mem_append.mpr (Or.inl hb))
    · refine ⟨hname, ?_⟩
      intro k v hkv
      rw [hc2 k]
      by_cases hk : k = us.1
      · exfalso
        rw [hk, hnone] at hkv
        cases hkv
      · rw [if_neg hk]
        exact hkv
    · show List.Forall₂ relKeeps post (post.map (relWriteTo c2.name us))
      rw [List.forall₂_map_right_iff]
      exact List.forall₂_same.mpr fun b hb => hkeep b (List.mem_append.mpr (Or.inr hb))

/-- One full step of the civilization phase preserves the relations
invariant, and every established relation entry of everybody survives with
its score. -/
theorem civStepFull_RelInv (c0 c2 : Civilization) (done rest nearby : List Civilization)
    (w w2 : World) (g g2 : Rng) (u : Option (String × ℤ))
    (hr : Civilization.execute_action (c0.update_state nearby g).1 nearby w
        (c0.update_state nearby g).2 = (c2, w2, u, g2))
    (hinv : RelInv (done ++ c0 :: rest)) :
    RelInv ((applyRelWrite c2.name u done ++ [c2]) ++ applyRelWrite c2.name u rest) ∧
    List.Forall₂ relKeeps (done ++ c0 :: rest)
      ((applyRelWrite c2.name u done ++ [c2]) ++ applyRelWrite c2.name u rest) := by
  have hc1 := update_state_relSame c0 nearby g
  have hname2 : c2.name = c0.name := by
    have h := execute_action_name (c0.update_state nearby g).1 nearby w
      (c0.update_state nearby g).2
    rw [hr] at h
    dsimp only at h
    exact h.trans hc1.1
  have hrel := execute_action_rel (c0.update_state nearby g).1 nearby w
    (c0.update_state nearby g).2
  rw [hr] at hrel
  dsimp only at hrel
  rw [show (applyRelWrite c2.name u done ++ [c2]) ++ applyRelWrite c2.name u rest
      = applyRelWrite c2.name u done ++ c2 :: applyRelWrite c2.name u rest by
    rw [List.append_assoc, List.singleton_append]]
  rcases hrel with ⟨hu, hsame⟩ | ⟨us, hu, hnone, hform⟩
  · subst hu
    dsimp only [applyRelWrite]
    have hcs : relSame c0 c2 := ⟨hname2, fun k => (hsame k).trans (hc1.2 k)⟩
    constructor
    · exact RelInv_congr (List.rel_append (forall₂_relSame_refl done)
        (List.Forall₂.cons hcs (forall₂_relSame_refl rest))) hinv
    · exact List.rel_append (forall₂_relKeeps_refl done)
        (List.Forall₂.cons (relSame_keeps hcs) (forall₂_relKeeps_refl rest))
  · subst hu
    exact claimRel_RelInv c0 c2 done rest us hname2
      (by rw [← hc1.2 us.1]; exact hnone)
      (fun k => by rw [hform k, hc1.2 k])
      hinv

/-- The whole civilization phase preserves the relations invariant and every
established relation entry. -/
theorem civPhase_RelInv : ∀ (pending done : List Civilization) (w : World) (g : Rng),
    RelInv (done ++ pending) →
    RelInv (civPhase w done pending g).2.1 ∧
    List.Forall₂ relKeeps (done ++ pending) (civPhase w done pending g).2.1
  | [], done, w, g => by
    intro hinv
    unfold civPhase
    constructor
    · rw [List.append_nil] at hinv
      exact hinv
    · rw [List.append_nil]
      exact forall₂_relKeeps_refl done
  | c0 :: rest, done, w, g => by
    intro hinv
    unfold civPhase
    split
    · have hassoc : (done ++ [c0]) ++ rest = done ++ c0 :: rest := by simp
      have h := civPhase_RelInv rest (done ++ [c0]) w g (by rw [hassoc]; exact hinv)
      refine ⟨h.1, ?_⟩
      have h2 := h.2
      rw [hassoc] at h2
      exact h2
    · dsimp only
      have hstep := civStepFull_RelInv c0 _ done rest
        (nearbyCivilizations w (done ++ c0 :: rest) c0) w _ g _ _ rfl hinv
      exact ⟨(civPhase_RelInv _ _ _ _ hstep.1).1,
        forall₂_relKeeps_trans hstep.2 (civPhase_RelInv _ _ _ _ hstep.1).2⟩
termination_by pending => pending.length
decreasing_by
  all_goals simp [applyRelWrite_length]

/-- One full simulation day preserves the relations invariant and every
established relation entry on both sides. -/
theorem tick_RelInv (s : Simulation) (g : Rng) (hinv : RelInv s.civilizations) :
    RelInv (s.tick g).1.civilizations ∧
    List.Forall₂ relKeeps s.civilizations (s.tick g).1.civilizations := by
  unfold Simulation.tick
  dsimp only
  have hciv := civPhase_RelInv s.civilizations []
    s.world.update_climate.update_resources g hinv
  have hev := processEvents_relSame
    (civPhase s.world.update_climate.update_resources [] s.civilizations g).1
    (civPhase s.world.update_climate.update_resources [] s.civilizations g).2.1
    (civPhase s.world.update_climate.update_resources [] s.civilizations g).2.2
  have hinv2 := RelInv_congr hev hciv.1
  have hpop := popPhase_relSame
    (processEvents
      (civPhase s.world.update_climate.update_resources [] s.civilizations g).1
      (civPhase s.world.update_climate.update_resources [] s.civilizations g).2.1
      (civPhase s.world.update_climate.update_resources [] s.civilizations g).2.2).2.1
    (processEvents
      (civPhase s.world.update_climate.update_resources [] s.civilizations g).1
      (civPhase s.world.update_climate.update_resources [] s.civilizations g).2.1
      (civPhase s.world.update_climate.update_resources [] s.civilizations g).2.2).2.2
  refine ⟨RelInv_congr hpop hinv2, ?_⟩
  exact forall₂_relKeeps_trans hciv.2 (forall₂_relKeeps_trans
    (hev.imp (fun _ _ => relSame_keeps)) (hpop.imp (fun _ _ => relSame_keeps)))

/-- Over a whole run, every established relation entry survives with its
score: once created, neither side's entry ever changes again. -/
theorem runLoop_RelInv : ∀ (days : ℕ) (s : Simulation) (g : Rng) (delay : ℚ),
    RelInv s.civilizations →
    RelInv (Simulation.runLoop s g days delay).1.1.civilizations ∧
    List.Forall₂ relKeeps s.civilizations
      (Simulation.runLoop s g days delay).1.1.civilizations
  | 0, s, g, delay => fun hinv => ⟨hinv, forall₂_relKeeps_refl _⟩
  | days + 1, s, g, delay => by
    intro hinv
    unfold Simulation.runLoop
    dsimp only
    have ht := tick_RelInv s g hinv
    split
    · exact ⟨ht.1, ht.2⟩
    · dsimp only
      have hrec := runLoop_RelInv days (s.tick g).1 (s.tick g).2 delay ht.1
      exact ⟨hrec.1, forall₂_relKeeps_trans ht.2 hrec.2⟩

/-! ### Relation establishment and immutability (claim C5) -/

/-- C5: diplomatic relations.  (a) The acting civilization never changes an
already-established entry.  (b) When a relation is established its target
is a nearby civilization with no prior entry; the stored score is
`clamp(50 + compatibility + r, 0, 100)` for a `randint(-15,15)` term `r`,
and both sides record the same score: the acting side under the other's
name, and — via the write `relWriteTo` applied to the other object — the
other side under the acting side's name.  (c) That write never touches any
key other than the acting civilization's name, and never touches an object
with a different name.  (d) Under the run invariant that the two sides'
entries for each other are established together, the overwritten entry was
unestablished, so no established score is ever changed.  (e) The
compatibility modifier is symmetric.  (f) No other civilization operation
writes `relations` at all.  (g) Nor does any random event: plague,
discovery and morale crisis rewrite only population, morale and tech
level, and every event leaves every relations table untouched.  (h) Hence
a whole tick, under the run invariant `RelInv` (unique names and pairwise
symmetric tables), preserves the invariant and every established entry
with its score — and (i) so does the whole run loop: once established,
neither side's score ever changes for the remainder of the run. -/
theorem c5_relations_symmetric_immutable (c : Civilization)
    (nearby : List Civilization) (g : Rng)
    (hq0 : 0 ≤ g.stream g.idx) (hq1 : g.stream g.idx < 1) :
    (∀ nm v, c.relations nm = some v →
      (c.action_diplomacy nearby g).1.relations nm = some v) ∧
    (∀ us, (c.action_diplomacy nearby g).2.1 = some us →
      ∃ other ∈ nearby, other.name = us.1 ∧ c.relations us.1 = none ∧
        (∃ r : ℤ, -15 ≤ r ∧ r ≤ 15 ∧
          us.2 = max 0 (min 100 (50 + Civilization.compatModifier c.personality other.personality + r))) ∧
        (c.action_diplomacy nearby g).1.relations us.1 = some us.2 ∧
        (∀ o : Civilization, o.name = us.1 →
          (relWriteTo c.name us o).relations c.name = some us.2)) ∧
    (∀ (us : String × ℤ) (o : Civilization) (nm : String), nm ≠ c.name →
      (relWriteTo c.name us o).relations nm = o.relations nm) ∧
    (∀ (us : String × ℤ) (o : Civilization), o.name ≠ us.1 →
      relWriteTo c.name us o = o) ∧
    ((∀ o ∈ nearby, (c.relations o.name = none ↔ o.relations c.name = none)) →
      ∀ us, (c.action_diplomacy nearby g).2.1 = some us →
        ∀ o ∈ nearby, o.name = us.1 → o.relations c.name = none) ∧
    (∀ p q, Civilization.compatModifier p q = Civilization.compatModifier q p) ∧
    ((∀ c' : Civilization, c'.action_idle.relations = c'.relations) ∧
     (∀ (c' : Civilization) (w : World), (c'.action_hunt w).1.relations = c'.relations) ∧
     (∀ (c' : Civilization) (w : World), (c'.action_gather w).1.relations = c'.relations) ∧
     (∀ (c' : Civilization) (w : World), (c'.action_expand w).1.relations = c'.relations) ∧
     (∀ c' : Civilization, c'.action_defend.relations = c'.relations) ∧
     (∀ (c' : Civilization) (nb : List Civilization) (g' : Rng),
       (c'.update_state nb g').1.relations = c'.relations) ∧
     (∀ (c' : Civilization) (g' : Rng),
       (c'.process_population_changes g').1.relations = c'.relations)) ∧
    (∀ (w' : World) (civs : List Civilization) (g' : Rng),
      List.Forall₂ relSame civs (plagueExecute w' civs g').2.1 ∧
      List.Forall₂ relSame civs (techExecute w' civs g').2.1 ∧
      List.Forall₂ relSame civs (moraleCrisisExecute w' civs g').2.1 ∧
      List.Forall₂ relSame civs (droughtExecute w' civs g').2.1 ∧
      List.Forall₂ relSame civs (bountifulExecute w' civs g').2.1 ∧
      List.Forall₂ relSame civs (processEvents w' civs g').2.1) ∧
    (∀ (s : Simulation) (g' : Rng), RelInv s.civilizations →
      RelInv (s.tick g').1.civilizations ∧
      List.Forall₂ relKeeps s.civilizations (s.tick g').1.civilizations) ∧
    (∀ (s : Simulation) (g' : Rng) (days : ℕ) (delay : ℚ), RelInv s.civilizations →
      List.Forall₂ relKeeps s.civilizations
        (Simulation.runLoop s g' days delay).1.1.civilizations) := by
  have hfound : ∀ other, nearby.find? (fun o => (c.relations o.name).isNone) = some other →
      other ∈ nearby ∧ c.relations other.name = none := by
    intro other hf
    refine ⟨List.mem_of_find?_eq_some hf, ?_⟩
    have := List.find?_some hf
    exact Option.isNone_iff_eq_none.mp this
  refine ⟨?_, ?_, ?_, ?_, ?_, ?_, ?_, ?_, ?_, ?_⟩
  · intro nm v hv
    unfold Civilization.action_diplomacy
    cases hf : nearby.find? (fun o => (c.relations o.name).isNone) with
    | none => exact hv
    | some other =>
      obtain ⟨hmem, hnone⟩ := hfound other hf
      dsimp only
      have hne : nm ≠ other.name := by
        intro e
        rw [e, hnone] at hv
        cases hv
      rw [if_neg hne]
      exact hv
  · intro us hus
    unfold Civilization.action_diplomacy at hus ⊢
    cases hf : nearby.find? (fun o => (c.relations o.name).isNone) with
    | none =>
      rw [hf] at hus
      cases hus
    | some other =>
      obtain ⟨hmem, hnone⟩ := hfound other hf
      rw [hf] at hus
      dsimp only at hus
      cases Option.some.inj hus
      refine ⟨other, hmem, rfl, hnone, ?_, ?_, ?_⟩
      · refine ⟨randInt (-15) 15 (g.stream g.idx), ?_, ?_, rfl⟩
        · exact (randInt_bounds (-15) 15 _ hq0 hq1 (by norm_num)).1
        · exact (randInt_bounds (-15) 15 _ hq0 hq1 (by norm_num)).2
      · dsimp only
        rw [if_pos rfl]
      · intro o ho
        unfold relWriteTo
        rw [if_pos ho]
        dsimp only
        rw [if_pos rfl]
  · intro us o nm hne
    unfold relWriteTo
    split
    · dsimp only
      rw [if_neg hne]
    · rfl
  · intro us o hne
    unfold relWriteTo
    rw [if_neg hne]
  · intro hsync us hus o ho hname
    unfold Civilization.action_diplomacy at hus
    cases hf : nearby.find? (fun o => (c.relations o.name).isNone) with
    | none =>
      rw [hf] at hus
      cases hus
    | some other =>
      obtain ⟨hmem, hnone⟩ := hfound other hf
      rw [hf] at hus
      dsimp only at hus
      cases Option.some.inj hus
      exact (hsync o ho).mp (by rw [hname]; exact hnone)
  · intro p q
    cases p <;> cases q <;> rfl
  · refine ⟨fun c' => rfl, fun c' w => rfl, fun c' w => rfl, ?_, fun c' => rfl, ?_, ?_⟩
    · intro c' w
      unfold Civilization.action_expand
      cases h : Civilization.findClaim w c'.territory <;> rfl
    · intro c' nb g'
      unfold Civilization.update_state
      dsimp only [Rng.next]
      split_ifs <;> rfl
    · intro c' g'
      unfold Civilization.process_population_changes
      dsimp only [Rng.next]
      split_ifs <;> rfl
  · intro w' civs g'
    exact ⟨plagueExecute_relSame w' civs g', techExecute_relSame w' civs g',
      moraleCrisisExecute_relSame w' civs g', droughtExecute_relSame w' civs g',
      bountifulExecute_relSame w' civs g', processEvents_relSame w' civs g'⟩
  · intro s g' hinv
    exact tick_RelInv s g' hinv
  · intro s g' days delay hinv
    exact (runLoop_RelInv days s g' delay hinv).2

/-- A civilization with one established relation, used as a witness input. -/
def establishedCiv : Civilization :=
  { witnessCiv with relations := fun n => if n = "B" then some 70 else none }

/-- A second, so far unmet civilization `"B"` (same peaceful personality). -/
def civB : Civilization :=
  { witnessCiv with name := "B" }

/-- The `"B"` side of an established symmetric pair with `establishedCiv`. -/
def estCivB : Civilization :=
  { witnessCiv with
      name := "B"
      relations := fun n => if n = "A" then some 70 else none }

theorem c5_witness :
    establishedCiv.relations "B" = some 70 ∧
    (establishedCiv.action_diplomacy [] zeroRng).1.relations "B" = some 70 ∧
    (relWriteTo establishedCiv.name ("B", 65) establishedCiv).relations "X"
      = establishedCiv.relations "X" ∧
    Civilization.compatModifier PersonalityTrait.peaceful PersonalityTrait.aggressive
      = Civilization.compatModifier PersonalityTrait.aggressive PersonalityTrait.peaceful ∧
    (witnessCiv.action_diplomacy [civB] zeroRng).2.1 = some ("B", 65) ∧
    (witnessCiv.action_diplomacy [civB] zeroRng).1.relations "B" = some 65 ∧
    (relWriteTo witnessCiv.name ("B", 65) civB).relations witnessCiv.name = some 65 ∧
    RelInv [establishedCiv, estCivB] ∧
    List.Forall₂ relKeeps [establishedCiv, estCivB]
      (Simulation.tick ⟨smallWorld, [establishedCiv, estCivB]⟩ zeroRng).1.civilizations ∧
    List.Forall₂ relKeeps [establishedCiv, estCivB]
      (Simulation.runLoop ⟨smallWorld, [establishedCiv, estCivB]⟩
        zeroRng 3 0).1.1.civilizations := by
  have h := c5_relations_symmetric_immutable establishedCiv [] zeroRng
    (by norm_num [zeroRng]) (by norm_num [zeroRng])
  have h2 := c5_relations_symmetric_immutable witnessCiv [civB] zeroRng
    (by norm_num [zeroRng]) (by norm_num [zeroRng])
  have hr0 : randInt (-15) 15 (zeroRng.stream zeroRng.idx) = -15 := by
    unfold randInt pyTrunc zeroRng
    norm_num [Int.floor_zero]
  have hus : (witnessCiv.action_diplomacy [civB] zeroRng).2.1 = some ("B", 65) := by
    unfold Civilization.action_diplomacy
    rw [show List.find? (fun o => (witnessCiv.relations o.name).isNone) [civB]
        = some civB from rfl]
    dsimp only [Rng.next]
    rw [hr0]
    rw [show Civilization.calc_initial_relations witnessCiv civB (-15) = 65 from by decide]
    rfl
  obtain ⟨o1, -, -, -, -, hself, hwrite⟩ := h2.2.1 ("B", 65) hus
  have hrelinv : RelInv [establishedCiv, estCivB] := by decide
  exact ⟨rfl, h.1 "B" 70 rfl, h.2.2.1 ("B", 65) establishedCiv "X" (by decide),
    h.2.2.2.2.2.1 _ _, hus, hself, hwrite civB rfl, hrelinv,
    (h.2.2.2.2.2.2.2.2.1 ⟨smallWorld, [establishedCiv, estCivB]⟩ zeroRng hrelinv).2,
    h.2.2.2.2.2.2.2.2.2 ⟨smallWorld, [establishedCiv, estCivB]⟩ zeroRng 3 0 hrelinv⟩

end DF








